import Mathlib

set_option maxRecDepth 100000

/-!
# Verification of the SupIRvisor entity-resolution engine

Shallow embedding of the core of the SupIRvisor repository
(`src/src/analyse_conf/`): the `Name` distance metric (`data.py`), the
module-level name helpers and the authorship linker `get_author_data`
(`author_info.py`), the paper/author matchers (`semantic_scholar.py`),
and the cached API client.

Python strings are modelled as `String`, machine integers as `Nat`,
dictionaries as association lists, and raising code returns `Option`
(`none` models an uncaught exception).  External API calls are modelled
as oracle functions passed in explicitly.  String primitives
(`str.lower`, `str.split(" ")`, `" ".join`) are given structurally
recursive implementations over character lists so that every definition
evaluates by kernel reduction.
-/

namespace AnalyseConf

/-! ## String primitives -/

/-- Python `str.lower()` (character-wise). -/
def strLower (s : String) : String := String.mk (s.data.map Char.toLower)

/-- Auxiliary for `split`: accumulates the current token (reversed). -/
def splitSpaceAux : List Char → List Char → List (List Char)
  | [], cur => [cur.reverse]
  | ' ' :: rest, cur => cur.reverse :: splitSpaceAux rest []
  | c :: rest, cur => splitSpaceAux rest (c :: cur)

/-- Python `s.split(" ")`: split on every single space, keeping empty tokens.
`"".split(" ") == [""]`, `" a".split(" ") == ["", "a"]`. -/
def splitSpace (s : String) : List String :=
  (splitSpaceAux s.data []).map String.mk

/-- Python `" ".join(words)`. -/
def joinWords : List String → String
  | [] => ""
  | [w] => w
  | w :: ws => w ++ " " ++ joinWords ws

/-! ## Levenshtein distance (`Levenshtein.distance`)

The library call used by `data.py` and `author_info.py`, embedded as the
standard dynamic-programming algorithm over character lists. -/

/-- One DP step of the Levenshtein algorithm: given the character `c` of the
left word, the remaining characters `bs` of the right word, the previous row
(starting at `d0`), and the value `cur` already computed for the current row,
produce the rest of the current row. -/
def levRowAux (c : Char) : List Char → List Nat → Nat → List Nat
  | [], _, _ => []
  | _ :: _, [], _ => []
  | b :: bs, d0 :: drest, cur =>
    let d1 := drest.headD (d0 + 1)
    let next := Nat.min (Nat.min (cur + 1) (d1 + 1)) (d0 + (if c = b then 0 else 1))
    next :: levRowAux c bs drest next

/-- Levenshtein edit distance between two character lists. -/
def levenshtein (a b : List Char) : Nat :=
  let finalRow := a.foldl
    (fun row c =>
      let first := row.headD 0 + 1
      first :: levRowAux c b row first)
    (List.range (b.length + 1))
  finalRow.getLastD 0

/-! ## `is_initialed` (regex `.*(?:^| )X[\.]?(?:$| ).*`)

`data.py` uses `\w` for the single character `X` (a word character);
`author_info.py` uses `.` (any character).  The regex is transcribed
positionally: a match is a position that is at the start of the string or
preceded by a space, holding an admissible character, optionally followed
by a dot, followed by a space or the end of the string. -/

/-- Python `\w` on the (ASCII) strings this program handles. -/
def isWordChar (c : Char) : Bool := c.isAlphanum || c = '_'

/-- Whether the tail of the string completes the regex after the single
character was consumed: end of string, a space, or a dot followed by end of
string or a space. -/
def initialTailOk : List Char → Bool
  | [] => true
  | ' ' :: _ => true
  | ['.'] => true
  | '.' :: ' ' :: _ => true
  | _ => false

/-- Scan for an occurrence of the initial pattern.  `charOk` constrains the
single character (`\w` in `data.py`, any character in `author_info.py`);
`atBoundary` records whether the current position is the start of the string
or preceded by a space. -/
def initialScan (charOk : Char → Bool) : Bool → List Char → Bool
  | _, [] => false
  | atBoundary, c :: rest =>
    (atBoundary && charOk c && initialTailOk rest) || initialScan charOk (c = ' ') rest

/-- `Name.is_initialed` of `data.py` (single character restricted to `\w`). -/
def isInitialedWord (s : String) : Bool := initialScan isWordChar true s.data

/-- `author_info.is_initialed` (single character unrestricted, `.` in the regex). -/
def isInitialedAny (s : String) : Bool := initialScan (fun _ => true) true s.data

/-! ## `initialise_name` / `Name.initialised`

```python
*name_parts, last_name = name.split(" ")
initials = [f"{part[0]}." for part in name_parts]
return " ".join(initials + [last_name]), initials
```

`part[0]` raises `IndexError` when a split token other than the last is
empty (e.g. a doubled or leading space); this is modelled by `none`. -/

/-- Convert a full written name into an initialised one,
e.g. `liam watts` into `l. watts`.  Returns the converted name and the list
of initials; `none` models the `IndexError` on an empty token. -/
def initialised (name : String) : Option (String × List String) :=
  let parts := splitSpace name
  let nameParts := parts.dropLast
  let lastName := parts.getLastD ""
  if nameParts.any (fun p => p.data.isEmpty) then none
  else
    let initials := nameParts.map (fun p => String.mk [p.data.headD ' ', '.'])
    some (joinWords (initials ++ [lastName]), initials)

/-! ## `author_info.name_distance` (module-level, lowercases its inputs) -/

/-- `name_distance` from `author_info.py`: Levenshtein distance between two
lowercased names, comparing initialised forms when either name is initialed
and the initial sequences coincide.  `none` models the `IndexError` raised
by `initialise_name` on a malformed name. -/
def name_distance (name1 name2 : String) : Option Nat :=
  let n1 := strLower name1
  let n2 := strLower name2
  if isInitialedAny n1 || isInitialedAny n2 then
    match initialised n1, initialised n2 with
    | some (new1, initials1), some (new2, initials2) =>
      if initials1 = initials2 then some (levenshtein new1.data new2.data)
      else some (levenshtein n1.data n2.data)
    | _, _ => none
  else some (levenshtein n1.data n2.data)

/-! ## The `Name` value type (`data.py`) -/

/-- `Name`: wraps a name string; the attrs converter lowercases on
construction (see `mkName`). -/
structure Name where
  name : String
deriving DecidableEq, Repr

/-- Construction of a `Name` (the `lowercase` converter). -/
def mkName (s : String) : Name := ⟨strLower s⟩

/-- `Name.is_initialed` (the `\w` pattern of `data.py`). -/
def Name.is_initialed (n : Name) : Bool := isInitialedWord n.name

/-- `Name.initialised`. -/
def Name.initialisedForm (n : Name) : Option (String × List String) := initialised n.name

/-- `Name.distance` of `data.py`; `none` models the `IndexError` raised by
`initialised` on a name with an empty split token. -/
def Name.distance (n other : Name) : Option Nat :=
  if n.is_initialed || other.is_initialed then
    match n.initialisedForm, other.initialisedForm with
    | some (f1, initials1), some (f2, initials2) =>
      if initials1 = initials2 then some (levenshtein f1.data f2.data)
      else some (levenshtein n.name.data other.name.data)
    | _, _ => none
  else some (levenshtein n.name.data other.name.data)

/-- A name all of whose split tokens except possibly the last are nonempty:
exactly the names on which `initialised` cannot raise. -/
def tokensOk (s : String) : Bool := !((splitSpace s).dropLast.any (fun p => p.data.isEmpty))

example : levenshtein "kitten".data "sitting".data = 3 := by decide
example : levenshtein "liam watts".data "lifm wftts".data = 2 := by decide
example : Name.distance (mkName "Liam Watts") (mkName "liam watts") = some 0 := by decide
example : Name.distance (mkName "Liam Watts") (mkName "L. Watts") = some 0 := by decide
example : Name.distance (mkName "Liam Watts") (mkName "D. Watts") = some 4 := by decide
example : Name.distance (mkName "liam watts") (mkName "l watts") = some 0 := by decide
example : (mkName "Terence C. S. Tao").is_initialed = true := by decide
example : (mkName " Liam ").is_initialed = false := by decide
example : Name.distance (mkName " Liam ") (mkName "L. Watts") = none := by decide

/-! ## Data model (`data.py`) -/

/-- `Authorship`: the edge between a paper and one scraped author name.
`author_name` holds the `Name` string (lowercased by the attrs converter);
`author_id` starts as `None` and is filled by the linker. -/
structure Authorship where
  title : String
  author_name : String
  author_id : Option String := none
deriving DecidableEq, Repr

/-- `Paper` from `data.py`. -/
structure Paper where
  title : String
  type : String
  authorships : List Authorship
deriving DecidableEq, Repr

/-- `Author`: only the fields the linker logic reads (`author_name`,
`author_id`); the optional statistics fields play no role in any claim. -/
structure Author where
  author_name : String
  author_id : String
deriving DecidableEq, Repr

/-- One entry of `paper_json["authors"]`: `{"authorId": str | None, "name": str}`. -/
structure AuthorIdJson where
  authorId : Option String
  name : String
deriving DecidableEq, Repr

/-- The paper record returned by `get_paper`: the linker only reads its
`authors` list. -/
structure PaperJson where
  authors : List AuthorIdJson
deriving DecidableEq, Repr

/-! ## The external API as an oracle

`get_author_data` interacts with SemanticScholar through
`query_engine.get_paper`, `query_engine.search_author` and
`query_engine.get_author` + `Author.from_API_json`.  These are modelled as
oracle functions: `getPaper` receives exactly the data the real
`get_paper` inspects (the title and the authorship names — it never reads
`author_id`); `getAuthor` covers `get_author` composed with
`Author.from_API_json` (modelled from the spec: `from_API_json` builds an
`Author` from the fetched record, whose id may differ from the requested
one when the API has superseded it). -/
structure Api where
  getPaper : String → List String → Option PaperJson
  searchAuthor : String → PaperJson → Option String
  getAuthor : String → Author

/-- `extract_author`: resolve an author reference to an `Author`, searching
by name when no id is supplied.  Also returns the list of ids fetched from
the API (`query_engine.get_author` calls), for the identity-cache claims.
Python truthiness: an empty-string id is falsy, so `if author_id:` fails. -/
def extract_author (api : Api) (authorIdJson : AuthorIdJson) (paperJson : PaperJson) :
    Option Author × List String :=
  let authorId :=
    match authorIdJson.authorId with
    | none => api.searchAuthor authorIdJson.name paperJson
    | some s => some s
  match authorId with
  | some s => if s = "" then (none, []) else (some (api.getAuthor s), [s])
  | none => (none, [])

/-! ## The authorship linker `get_author_data` (`author_info.py`)

State of the loop: `authors`, `seen_author_ids`, `corrected_ids`, plus two
instrumentation logs that record observable events verbatim — every id
passed to `query_engine.get_author` (`fetches`) and every execution of the
assignment `min_dist_authorship.author_id = author_id`
(`writes`, as (paper index, authorship index, id)). -/

structure LinkState where
  authors : List Author
  seen : List String
  corrected : List (Option String × String)
  fetches : List String
  writes : List (Nat × Nat × String)
deriving DecidableEq, Repr

/-- Lookup in `corrected_ids` (a Python dict keyed by `str | None`; newest
binding first, as later assignments overwrite). -/
def lookupCorrected (corrected : List (Option String × String)) (k : Option String) :
    Option String :=
  match corrected.find? (fun e => decide (e.fst = k)) with
  | some e => some e.snd
  | none => none

/-- Index of the first minimum of a list (`min` over a Python dict in
insertion order); `none` on the empty list (`min()` raises `ValueError`). -/
def argminIdxAux : List Nat → Nat → Nat → Nat → Nat
  | [], _, best, _ => best
  | d :: rest, i, best, bestVal =>
    if d < bestVal then argminIdxAux rest (i + 1) i d
    else argminIdxAux rest (i + 1) best bestVal

def argminIdx : List Nat → Option Nat
  | [] => none
  | d :: rest => some (argminIdxAux rest 1 0 d)

/-- The dict comprehension
`{authorship: name_distance(author_id, authorship.author_name) for authorship in paper.authorships}`:
note the first argument really is the author ID string.  `none` models the
exception when `name_distance` raises. -/
def distancesFor (authorId : String) (auths : List Authorship) : Option (List Nat) :=
  auths.mapM (fun a => name_distance authorId a.author_name)

/-- Write `author_id` on the authorship at index `i`
(`min_dist_authorship.author_id = author_id`). -/
def setAuthorId : List Authorship → Nat → String → List Authorship
  | [], _, _ => []
  | a :: rest, 0, v => { a with author_id := some v } :: rest
  | a :: rest, n + 1, v => a :: setAuthorId rest n v

/-- The `if author_id is None or author_id not in seen_author_ids:` block
of `get_author_data`: attempt extraction for unseen authors; the `Bool` is
true when the body executed `continue` (extraction failed). -/
def extractPhase (api : Api) (paperJson : PaperJson) (st : LinkState)
    (authorIdJson : AuthorIdJson) : LinkState × Bool :=
  let authorId := authorIdJson.authorId
  let isNew : Bool :=
    match authorId with
    | none => true
    | some s => !(decide (s ∈ st.seen))
  if isNew then
    match extract_author api authorIdJson paperJson with
    | (none, fs) => ({ st with fetches := st.fetches ++ fs }, true) -- failed: `continue`
    | (some author, fs) =>
      let newSeen : String :=
        -- `new_seen = author_id or author.author_id` (empty string is falsy)
        match authorId with
        | some s => if s = "" then author.author_id else s
        | none => author.author_id
      ({ st with
          authors := st.authors ++ [author]
          fetches := st.fetches ++ fs
          seen := if newSeen ∈ st.seen then st.seen else st.seen ++ [newSeen]
          corrected :=
            if authorId = some author.author_id then st.corrected
            else (authorId, author.author_id) :: st.corrected },
        false)
  else (st, false)

/-- `if author_id in corrected_ids: author_id = corrected_ids[author_id]`. -/
def correctId (corrected : List (Option String × String)) (authorId : Option String) :
    Option String :=
  match lookupCorrected corrected authorId with
  | some c => some c
  | none => authorId

/-- The id-correction and authorship-assignment tail of the loop body.
Returns `none` when the Python code would raise. -/
def assignPhase (paperJson : PaperJson) (paperIdx : Nat) (st : LinkState)
    (auths : List Authorship) (authorId : Option String) :
    Option (LinkState × List Authorship) :=
  match correctId st.corrected authorId with
  | none => none -- `name_distance(None, ...)` would raise AttributeError
  | some v =>
    match distancesFor v auths with
    | none => none -- name_distance raised
    | some ds =>
      match argminIdx ds with
      | none => none -- `min()` over an empty dict raises ValueError
      | some i =>
        if paperJson.authors.length = auths.length ∨ ds.getD i 0 < 5 then
          some ({ st with writes := st.writes ++ [(paperIdx, i, v)] },
            setAuthorId auths i v)
        else
          some (st, auths)

/-- The body of `for author_id_json in paper_json["authors"]` in
`get_author_data`. -/
def processAuthorIdJson (api : Api) (paperJson : PaperJson) (paperIdx : Nat)
    (st : LinkState) (auths : List Authorship) (authorIdJson : AuthorIdJson) :
    Option (LinkState × List Authorship) :=
  match extractPhase api paperJson st authorIdJson with
  | (st1, true) => some (st1, auths)
  | (st1, false) => assignPhase paperJson paperIdx st1 auths authorIdJson.authorId

/-- One iteration of `for i, paper in enumerate(papers)`. -/
def processPaper (api : Api) (paperIdx : Nat) (st : LinkState) (paper : Paper) :
    Option (LinkState × Paper) :=
  match api.getPaper paper.title (paper.authorships.map (fun a => a.author_name)) with
  | none => some (st, paper) -- unmatched paper: `continue`
  | some paperJson =>
    match paperJson.authors.foldlM
        (fun acc aj => processAuthorIdJson api paperJson paperIdx acc.1 acc.2 aj)
        ((st, paper.authorships) : LinkState × List Authorship) with
    | none => none
    | some (st1, auths) => some (st1, { paper with authorships := auths })

def linkPapers (api : Api) : Nat → LinkState → List Paper → Option (LinkState × List Paper)
  | _, st, [] => some (st, [])
  | i, st, p :: ps => do
    let r1 ← processPaper api i st p
    let r2 ← linkPapers api (i + 1) r1.1 ps
    pure (r2.1, r1.2 :: r2.2)

/-- Result of a full run: the returned `authors` list, the mutated papers,
and the instrumentation logs. -/
structure LinkResult where
  authors : List Author
  papers : List Paper
  writes : List (Nat × Nat × String)
  fetches : List String
deriving DecidableEq, Repr

/-- `get_author_data(papers)`: run the linker over all papers.  `none`
models a run aborted by an exception. -/
def get_author_data (api : Api) (papers : List Paper) : Option LinkResult :=
  match linkPapers api 0 ⟨[], [], [], [], []⟩ papers with
  | none => none
  | some (st, ps) => some ⟨st.authors, ps, st.writes, st.fetches⟩

/-! ## Concrete scenarios for the linker -/

/-- Scenario A: one paper with authorships `liam watts`, `zed zed`; the
external record lists the same two authors with ids `1` and `2` and exactly
matching names. -/
def apiA : Api where
  getPaper := fun t _ =>
    if t = "t" then some ⟨[⟨some "1", "liam watts"⟩, ⟨some "2", "zed zed"⟩]⟩ else none
  searchAuthor := fun _ _ => none
  getAuthor := fun s => if s = "1" then ⟨"liam watts", "1"⟩ else ⟨"zed zed", "2"⟩

def papersA : List Paper :=
  [⟨"t", "Long", [⟨"t", "liam watts", none⟩, ⟨"t", "zed zed", none⟩]⟩]

/-- Scenario B: two distinct papers sharing the title `t`, each with the
single authorship `ann lee`; the external record lists one author `A`. -/
def apiB : Api where
  getPaper := fun t _ => if t = "t" then some ⟨[⟨some "A", "ann lee"⟩]⟩ else none
  searchAuthor := fun _ _ => none
  getAuthor := fun _ => ⟨"ann lee", "A"⟩

def papersB : List Paper :=
  [⟨"t", "Long", [⟨"t", "ann lee", none⟩]⟩, ⟨"t", "Short", [⟨"t", "ann lee", none⟩]⟩]

/-- Scenario C: one paper with a single authorship, while the external
record lists two authors whose names are far from the local one. -/
def apiC : Api where
  getPaper := fun t _ =>
    if t = "t" then some ⟨[⟨some "x1", "b bb"⟩, ⟨some "x2", "c cc"⟩]⟩ else none
  searchAuthor := fun _ _ => none
  getAuthor := fun s => if s = "x1" then ⟨"b bb", "x1"⟩ else ⟨"c cc", "x2"⟩

def papersC : List Paper :=
  [⟨"t", "Long", [⟨"t", "aaaaaaaaaa", none⟩]⟩]

/-- Scenario D: paper `t1` lists author id `A`, which the API corrects to
`B` on fetch; paper `t2` then lists the corrected id `B` directly. -/
def apiD : Api where
  getPaper := fun t _ =>
    if t = "t1" then some ⟨[⟨some "A", "n a"⟩]⟩
    else if t = "t2" then some ⟨[⟨some "B", "n b"⟩]⟩
    else none
  searchAuthor := fun _ _ => none
  getAuthor := fun s => if s = "A" then ⟨"n a", "B"⟩ else ⟨"n b", "B"⟩

def papersD : List Paper :=
  [⟨"t1", "Long", [⟨"t1", "n a", none⟩]⟩, ⟨"t2", "Long", [⟨"t2", "n b", none⟩]⟩]

example :
    get_author_data apiA papersA =
      some ⟨[⟨"liam watts", "1"⟩, ⟨"zed zed", "2"⟩],
        [⟨"t", "Long", [⟨"t", "liam watts", none⟩, ⟨"t", "zed zed", some "2"⟩]⟩],
        [(0, 1, "1"), (0, 1, "2")], ["1", "2"]⟩ := by decide

example :
    get_author_data apiB papersB =
      some ⟨[⟨"ann lee", "A"⟩],
        [⟨"t", "Long", [⟨"t", "ann lee", some "A"⟩]⟩,
          ⟨"t", "Short", [⟨"t", "ann lee", some "A"⟩]⟩],
        [(0, 0, "A"), (1, 0, "A")], ["A"]⟩ := by decide

example :
    get_author_data apiC papersC =
      some ⟨[⟨"b bb", "x1"⟩, ⟨"c cc", "x2"⟩],
        [⟨"t", "Long", [⟨"t", "aaaaaaaaaa", none⟩]⟩],
        [], ["x1", "x2"]⟩ := by decide

example :
    get_author_data apiD papersD =
      some ⟨[⟨"n a", "B"⟩, ⟨"n b", "B"⟩],
        [⟨"t1", "Long", [⟨"t1", "n a", some "B"⟩]⟩,
          ⟨"t2", "Long", [⟨"t2", "n b", some "B"⟩]⟩],
        [(0, 0, "B"), (1, 0, "B")], ["A", "B"]⟩ := by decide

/-! ## Author search records (`semantic_scholar.py` pydantic models) -/

/-- A co-author entry on one of a candidate author's papers. -/
structure CoAuthorJson where
  authorId : Option String
deriving DecidableEq, Repr

/-- `AuthoredPaper`: a paper written by a candidate author. -/
structure AuthoredPaperJson where
  paperId : String
  authors : List CoAuthorJson
deriving DecidableEq, Repr

/-- `AuthorWithPapers`: one candidate from the author-by-name search. -/
structure AuthorWithPapers where
  authorId : String
  papers : List AuthoredPaperJson
deriving DecidableEq, Repr

/-- `PaperAuthor` of `semantic_scholar.py`. -/
structure PaperAuthor where
  authorId : Option String
  name : String
deriving DecidableEq, Repr

/-- `SemanticScholarPaper` of `semantic_scholar.py`. -/
structure SemanticScholarPaper where
  paperId : String
  title : String
  authors : List PaperAuthor
deriving DecidableEq, Repr

/-! ## Author matching by co-author overlap

Two generations exist in the repository: `search_author`
(`author_info.py`, scores only matching co-author occurrences, so
zero-overlap candidates get no entry) and
`SemanticScholarSearcher._find_matching_author` (`semantic_scholar.py`,
assigns every candidate its count, zero included). -/

/-- Total co-author occurrences of `author` (over all its papers) whose id
lies in `coIds` — the score both generations compute per candidate. -/
def countMatches (coIds : List (Option String)) (author : AuthorWithPapers) : Nat :=
  ((author.papers.map (fun p => p.authors)).flatten).countP
    (fun c => decide (c.authorId ∈ coIds))

/-- Python dict increment `d[k] = d.get(k, 0) + 1` (insertion order kept). -/
def bumpScore : List (String × Nat) → String → List (String × Nat)
  | [], k => [(k, 1)]
  | (k0, v0) :: rest, k =>
    if k0 = k then (k0, v0 + 1) :: rest else (k0, v0) :: bumpScore rest k

/-- Python dict assignment `d[k] = n` (insertion order kept). -/
def insertScore : List (String × Nat) → String → Nat → List (String × Nat)
  | [], k, n => [(k, n)]
  | (k0, v0) :: rest, k, n =>
    if k0 = k then (k0, n) :: rest else (k0, v0) :: insertScore rest k n

/-- `max(author_score, key=lambda x: author_score[x])`: first key of maximal
value in insertion order (Python `max` keeps the incumbent on ties). -/
def dictMaxGo (k : String) (v : Nat) : List (String × Nat) → String
  | [] => k
  | (k1, v1) :: rest => if v < v1 then dictMaxGo k1 v1 rest else dictMaxGo k v rest

def dictMax : List (String × Nat) → Option String
  | [] => none
  | (k, v) :: rest => some (dictMaxGo k v rest)

/-- The score dict built by the legacy `search_author`: one increment per
matching co-author occurrence, so only candidates with at least one match
ever receive an entry. -/
def authorScoresOld (coIds : List (Option String)) (cands : List AuthorWithPapers) :
    List (String × Nat) :=
  cands.foldl
    (fun sc a =>
      ((a.papers.map (fun p => p.authors)).flatten).foldl
        (fun sc1 c => if c.authorId ∈ coIds then bumpScore sc1 a.authorId else sc1) sc)
    []

/-- Legacy `search_author` (`author_info.py`): the candidate list obtained
from the author-by-name search is passed in (the network part is the cached
client).  `co_author_ids` is the set of all author ids on the target paper
record, `None` included. -/
def search_author (retrievedAuthors : List AuthorWithPapers) (paperJson : PaperJson) :
    Option String :=
  let coIds := paperJson.authors.map (fun a => a.authorId)
  dictMax (authorScoresOld coIds retrievedAuthors)

/-- The score dict built by `_find_matching_author`: every candidate is
assigned its count, zero included. -/
def authorScoresNew (coIds : List (Option String)) (cands : List AuthorWithPapers) :
    List (String × Nat) :=
  cands.foldl (fun sc a => insertScore sc a.authorId (countMatches coIds a)) []

/-- `SemanticScholarSearcher._find_matching_author` (`semantic_scholar.py`). -/
def findMatchingAuthor (retrievedAuthors : List AuthorWithPapers)
    (paper : SemanticScholarPaper) : Option String :=
  let paperCoauthors := paper.authors.map (fun a => a.authorId)
  dictMax (authorScoresNew paperCoauthors retrievedAuthors)

/-! ## Paper matching (`SemanticScholarSearcher`, `semantic_scholar.py`) -/

/-- `_equal_titles`: compare the first three words of each lowercased title. -/
def equal_titles (t1 t2 : String) : Bool :=
  decide ((splitSpace (strLower t1)).take 3 = (splitSpace (strLower t2)).take 3)

/-- `_shares_author`: some candidate author name (lowercased) equals one of
the paper's authorship names. -/
def shares_author (candidate : SemanticScholarPaper) (paper : Paper) : Bool :=
  candidate.authors.any
    (fun a => paper.authorships.any (fun ats => decide (ats.author_name = strLower a.name)))

/-- `_is_same_paper`. -/
def is_same_paper (candidate : SemanticScholarPaper) (paper : Paper) : Bool :=
  equal_titles candidate.title paper.title || shares_author candidate paper

/-- The truncated queries tried by `_get_paper_candidates`:
`for i in range(1, len(title_words) - 2): " ".join(title_words[:-i])`. -/
def truncQueries (title : String) : List String :=
  let ws := splitSpace title
  (List.range' 1 (ws.length - 3)).map (fun i => joinWords (ws.take (ws.length - i)))

/-- First non-empty search result along a list of queries (the `for` loop
with early `return`), `[]` if every query comes back empty. -/
def firstNonEmptyQuery (search : String → List SemanticScholarPaper) :
    List String → List SemanticScholarPaper
  | [] => []
  | q :: qs =>
    match search q with
    | [] => firstNonEmptyQuery search qs
    | r => r

/-- `_get_paper_candidates`: title verbatim, then title + first author, then
title truncations.  `search` is `_query_paper` (a deterministic function of
the query within a session thanks to the cache).  `none` models the
`IndexError` of `paper.authorships[0]` on a paper without authorships. -/
def getPaperCandidates (search : String → List SemanticScholarPaper) (paper : Paper) :
    Option (List SemanticScholarPaper) :=
  match search paper.title with
  | r@(_ :: _) => some r
  | [] =>
    match paper.authorships with
    | [] => none
    | a0 :: _ =>
      match search (paper.title ++ " " ++ a0.author_name) with
      | r@(_ :: _) => some r
      | [] => some (firstNonEmptyQuery search (truncQueries paper.title))

/-- `_match_paper_to_candidates`: first candidate matching the paper. -/
def matchPaperToCandidates (paper : Paper) (cs : List SemanticScholarPaper) :
    Option SemanticScholarPaper :=
  cs.find? (fun c => is_same_paper c paper)

/-- `search_paper` of `SemanticScholarSearcher`: outer `none` models the
raised `IndexError`; the inner option is the matching outcome. -/
def searchPaperSem (search : String → List SemanticScholarPaper) (paper : Paper) :
    Option (Option SemanticScholarPaper) :=
  (getPaperCandidates search paper).map (matchPaperToCandidates paper)

/-! ## The cached API client (`SemanticScholarQuerier`) -/

/-- An opaque JSON response payload. -/
structure Json where
  val : String
deriving DecidableEq, Repr

/-- The request cache: resource url to response, insertion-ordered. -/
abbrev Cache := List (String × Json)

def cacheLookup (cache : Cache) (url : String) : Option Json :=
  match cache.find? (fun e => decide (e.fst = url)) with
  | some e => some e.snd
  | none => none

/-- `__clean_query`: `re.sub(r"[^\w]", "+", query)`. -/
def clean_query (query : String) : String :=
  String.mk (query.data.map (fun c => if isWordChar c then c else '+'))

/-- The resource url built by `search_paper` / `__search_paper`. -/
def paperSearchUrl (query : String) : String :=
  "paper/search?query=" ++ clean_query query ++ "&fields=authors,title"

/-- The resource url built by `search_author_by_id` / `get_author`. -/
def authorIdUrl (id : String) : String :=
  "author/" ++ id ++ "?fields=name,affiliations,paperCount,citationCount,hIndex"

/-- The resource url built by `search_author_by_name`. -/
def authorSearchUrl (name : String) : String :=
  "author/search?query=" ++ clean_query name ++ "&fields=papers.authors&limit=20"

/-- `__get_json` with the network as a deterministic oracle (no failures):
returns the response, the updated cache, and the number of network calls
performed (0 or 1). -/
def getJson (net : String → Json) (cache : Cache) (url : String) : Json × Cache × Nat :=
  match cacheLookup cache url with
  | some j => (j, cache, 0)
  | none => (net url, cache ++ [(url, net url)], 1)

/-- `__get_json` with explicit response statuses: `responses` lists the
successive network answers (status, body) this url would receive.  Result:
`Except.error status` models `raise_for_status` (4xx/5xx other than 429),
`Except.ok` the parsed json; the `Nat` is the total seconds slept
(`time.sleep(60)` per 429 before the transparent retry); `none` models a
never-ending run (429 forever: the stream is exhausted). -/
def netWalk (cache : Cache) (url : String) :
    List (Nat × Json) → Option ((Except Nat Json) × Cache × Nat)
  | [] => none
  | (status, j) :: rest =>
    if status = 429 then
      match netWalk cache url rest with
      | some (r, c, t) => some (r, c, t + 60)
      | none => none
    else if 400 ≤ status ∧ status ≤ 599 then some (Except.error status, cache, 0)
    else some (Except.ok j, cache ++ [(url, j)], 0)

def getJsonStatus (cache : Cache) (url : String) (responses : List (Nat × Json)) :
    Option ((Except Nat Json) × Cache × Nat) :=
  match cacheLookup cache url with
  | some j => some (Except.ok j, cache, 0)
  | none => netWalk cache url responses

/-- `__enter__`: load the persisted cache if it exists. -/
def sessionEnter (store : Option Cache) : Cache := store.getD []

/-- `__exit__(exc_type, exc_val, exc_tb)`: write the cache to storage; the
exception arguments are ignored, so the flush happens on raising runs too. -/
def sessionExit (cache : Cache) (_raised : Bool) (_store : Option Cache) : Option Cache :=
  some cache

/-- Scenario E: a well-behaved API for witnesses — every author reference
carries a definite id and fetching an id returns a record with that id. -/
def apiE : Api where
  getPaper := fun _ _ => some ⟨[⟨some "A", "n"⟩]⟩
  searchAuthor := fun _ _ => none
  getAuthor := fun s => ⟨"n", s⟩

def papersE : List Paper := [⟨"t", "Long", [⟨"t", "n", none⟩]⟩]

/-- Scenario F: a search oracle for the paper-matcher witness — the verbatim
title and the title + author query find nothing, the first 3-word truncation
finds one candidate with a drifted title but a shared author. -/
def candF : SemanticScholarPaper :=
  ⟨"p9", "A Different Headline Entirely", [⟨some "7", "Jane Doe"⟩]⟩

def searchF : String → List SemanticScholarPaper :=
  fun q => if q = "alpha beta gamma" then [candF] else []

def paperF : Paper :=
  ⟨"alpha beta gamma delta", "Long", [⟨"alpha beta gamma delta", "jane doe", none⟩]⟩

/-- Run invariant for the identity-cache analysis: the emitted authors
correspond one-to-one (and in order) to the ids fetched from the API, no id
has been fetched twice, and the fetched ids are exactly the seen set. -/
def CacheInv (st : LinkState) : Prop :=
  st.authors.map Author.author_id = st.fetches ∧ st.fetches.Nodup ∧
    ∀ s, s ∈ st.fetches ↔ s ∈ st.seen

/-- Paper-local invariant for the uniqueness analysis: every authorship
holding an id sits exactly at the index that `min` selects for that id
(which depends only on the id and the unchanging authorship names), so two
positions can never hold the same id. -/
def AssignInv (auths : List Authorship) : Prop :=
  ∀ i a, auths[i]? = some a → ∀ v, a.author_id = some v →
    (distancesFor v auths).bind argminIdx = some i

/-! # Theorems -/

/-! ## Lemmas about the string and list helpers -/

theorem initialised_isSome_of_tokensOk {s : String} (h : tokensOk s = true) :
    (initialised s).isSome = true := by
  unfold tokensOk at h
  unfold initialised
  simp only [Bool.not_eq_true'] at h
  simp [h]

theorem cacheLookup_cons (e : String × Json) (cache : Cache) (url : String) :
    cacheLookup (e :: cache) url =
      if e.fst = url then some e.snd else cacheLookup cache url := by
  by_cases h : e.fst = url <;> simp [cacheLookup, List.find?_cons, h]

theorem cacheLookup_append_hit (cache : Cache) (url : String) (j : Json)
    (h : cacheLookup cache url = some j) (l : Cache) :
    cacheLookup (cache ++ l) url = some j := by
  induction cache with
  | nil => simp [cacheLookup] at h
  | cons e rest ih =>
    rw [List.cons_append]
    rw [cacheLookup_cons] at h ⊢
    by_cases he : e.fst = url
    · simpa [he] using h
    · rw [if_neg he] at h ⊢
      exact ih h

theorem cacheLookup_append_miss (cache : Cache) (url : String) (j : Json)
    (h : cacheLookup cache url = none) :
    cacheLookup (cache ++ [(url, j)]) url = some j := by
  induction cache with
  | nil => simp [cacheLookup]
  | cons e rest ih =>
    rw [cacheLookup_cons] at h
    rw [List.cons_append, cacheLookup_cons]
    by_cases he : e.fst = url
    · simp [he] at h
    · rw [if_neg he] at h ⊢
      exact ih h

theorem netWalk_pre429 (cache : Cache) (url : String) (pre rest : List (Nat × Json))
    (h : ∀ r ∈ pre, r.1 = 429) :
    netWalk cache url (pre ++ rest) =
      (netWalk cache url rest).map (fun x => (x.1, x.2.1, x.2.2 + 60 * pre.length)) := by
  induction pre with
  | nil =>
    cases hw : netWalk cache url rest with
    | none => simp [hw]
    | some x => simp [hw]
  | cons r pre ih =>
    obtain ⟨status, body⟩ := r
    have hr : status = 429 := h (status, body) (List.mem_cons_self _ _)
    subst hr
    have hpre : ∀ x ∈ pre, x.1 = 429 := fun x hx => h x (List.mem_cons_of_mem _ hx)
    have hstep : netWalk cache url ((429, body) :: (pre ++ rest)) =
        (match netWalk cache url (pre ++ rest) with
          | some (r, c, t) => some (r, c, t + 60)
          | none => none) := rfl
    rw [List.cons_append, hstep, ih hpre]
    cases hw : netWalk cache url rest with
    | none => simp
    | some x =>
      obtain ⟨r1, c1, t1⟩ := x
      simp [List.length_cons, Nat.mul_succ]
      omega

/-! ## Claim C7 — the Name distance metric -/

/-- C7: for every pair of names, `Name.distance` is the Levenshtein distance
of the lowercased strings, except that when either name is initialed both
are converted to initialed form (each token but the last collapsed to first
letter + dot) and compared in that form exactly when the two initial
sequences are identical; in particular
`distance("Liam Watts", "L. Watts") = 0` and
`distance("Liam Watts", "D. Watts") = 4 ≥ 4`.  (The initialed case is
stated for names on which the conversion succeeds; the raising inputs are
the subject of the totality claim.) -/
theorem name_distance_metric_spec :
    (∀ n1 n2 : Name, (n1.is_initialed || n2.is_initialed) = false →
      n1.distance n2 = some (levenshtein n1.name.data n2.name.data)) ∧
    (∀ n1 n2 : Name, ∀ f1 f2 : String, ∀ i1 i2 : List String,
      (n1.is_initialed || n2.is_initialed) = true →
      n1.initialisedForm = some (f1, i1) → n2.initialisedForm = some (f2, i2) →
      n1.distance n2 = some (if i1 = i2 then levenshtein f1.data f2.data
        else levenshtein n1.name.data n2.name.data)) ∧
    Name.distance (mkName "Liam Watts") (mkName "L. Watts") = some 0 ∧
    Name.distance (mkName "Liam Watts") (mkName "D. Watts") = some 4 := by
  refine ⟨fun n1 n2 h => ?_, fun n1 n2 f1 f2 i1 i2 h h1 h2 => ?_, by decide, by decide⟩
  · simp [Name.distance, h]
  · simp only [Name.distance, h, if_true, h1, h2]
    by_cases hi : i1 = i2 <;> simp [hi]

/-- Witness for C7 at `("liam watts", "l. watts")`: both conversion results
are concrete and the initial sequences agree, giving distance 0. -/
theorem name_distance_metric_spec_witness :
    Name.distance (mkName "liam watts") (mkName "l. watts") =
      some (if (["l."] : List String) = ["l."]
        then levenshtein "l. watts".data "l. watts".data
        else levenshtein "liam watts".data "l. watts".data) :=
  name_distance_metric_spec.2.1 (mkName "liam watts") (mkName "l. watts")
    "l. watts" "l. watts" ["l."] ["l."] (by decide) (by decide) (by decide)

/-! ## Claim C10 — totality of Name.distance -/

/-- C10 counterexample: `Name(" Liam ")` against the initialed
`Name("L. Watts")` does not return a distance — `initialised()` indexes the
empty token produced by the leading space and raises `IndexError`
(modelled by `none`), so `distance` is not total on constructed names. -/
theorem name_distance_total_cex :
    Name.distance (mkName " Liam ") (mkName "L. Watts") = none := by decide

/-- C10 amended: `Name.distance` returns an integer for every pair of
constructed names whose space-split has no empty token before the last
(i.e. no leading or doubled space); on such names the empty-string indexing
inside `initialised()` is unreachable.  A name with a leading, trailing or
doubled space that reaches the initialed branch raises instead. -/
theorem name_distance_total_amended :
    ∀ s1 s2 : String, tokensOk (strLower s1) = true → tokensOk (strLower s2) = true →
      (Name.distance (mkName s1) (mkName s2)).isSome = true := by
  intro s1 s2 h1 h2
  have m1 : (mkName s1).name = strLower s1 := rfl
  have m2 : (mkName s2).name = strLower s2 := rfl
  unfold Name.distance
  cases hb : ((mkName s1).is_initialed || (mkName s2).is_initialed) with
  | false => simp
  | true =>
    simp only [if_true]
    have hs1 : ((mkName s1).initialisedForm).isSome = true := by
      rw [Name.initialisedForm, m1]; exact initialised_isSome_of_tokensOk h1
    have hs2 : ((mkName s2).initialisedForm).isSome = true := by
      rw [Name.initialisedForm, m2]; exact initialised_isSome_of_tokensOk h2
    rcases Option.isSome_iff_exists.mp hs1 with ⟨⟨f1, i1⟩, e1⟩
    rcases Option.isSome_iff_exists.mp hs2 with ⟨⟨f2, i2⟩, e2⟩
    rw [e1, e2]
    by_cases hi : i1 = i2 <;> simp [hi]

/-- Witness for C10 amended at two concrete well-formed names. -/
theorem name_distance_total_amended_witness :
    (Name.distance (mkName "Liam Watts") (mkName "L. Watts")).isSome = true :=
  name_distance_total_amended "Liam Watts" "L. Watts" (by decide) (by decide)

/-! ## Claim C9 — rate-limit retry versus hard failure -/

/-- C9: for an uncached request, any finite prefix of 429 responses causes a
deterministic pause (60 seconds each) followed by a transparent retry: a
subsequent success response is returned unmodified (and cached) as if no
rate-limiting had happened, never as an error; while a first non-429
response with a 4xx/5xx status is raised (`raise_for_status`) and
propagates unmodified, leaving the cache untouched. -/
theorem rate_limit_retry_spec :
    (∀ (cache : Cache) (url : String) (pre rest : List (Nat × Json)) (s : Nat) (j : Json),
      cacheLookup cache url = none → (∀ r ∈ pre, r.1 = 429) →
      ¬(400 ≤ s ∧ s ≤ 599) →
      getJsonStatus cache url (pre ++ (s, j) :: rest) =
        some (Except.ok j, cache ++ [(url, j)], 60 * pre.length)) ∧
    (∀ (cache : Cache) (url : String) (pre rest : List (Nat × Json)) (s : Nat) (j : Json),
      cacheLookup cache url = none → (∀ r ∈ pre, r.1 = 429) →
      400 ≤ s → s ≤ 599 → s ≠ 429 →
      getJsonStatus cache url (pre ++ (s, j) :: rest) =
        some (Except.error s, cache, 60 * pre.length)) := by
  constructor
  · intro cache url pre rest s j hmiss hpre hs
    have h429 : s ≠ 429 := by omega
    rw [getJsonStatus, hmiss, netWalk_pre429 cache url pre _ hpre]
    have hw : netWalk cache url ((s, j) :: rest) =
        some (Except.ok j, cache ++ [(url, j)], 0) := by
      rw [netWalk, if_neg h429, if_neg hs]
    rw [hw]
    simp
  · intro cache url pre rest s j hmiss hpre hs1 hs2 h429
    rw [getJsonStatus, hmiss, netWalk_pre429 cache url pre _ hpre]
    have hw : netWalk cache url ((s, j) :: rest) =
        some (Except.error s, cache, 0) := by
      rw [netWalk, if_neg h429, if_pos ⟨hs1, hs2⟩]
    rw [hw]
    simp

/-- Witness for C9: two 429 responses then a 200 produce the successful
body after 120 seconds of sleeping; a direct 500 raises. -/
theorem rate_limit_retry_spec_witness :
    getJsonStatus [] "u" [(429, ⟨"x"⟩), (429, ⟨"y"⟩), (200, ⟨"ok"⟩)] =
      some (Except.ok ⟨"ok"⟩, [("u", ⟨"ok"⟩)], 60 * 2) ∧
    getJsonStatus [] "u" [(500, ⟨"boom"⟩)] = some (Except.error 500, [], 60 * 0) :=
  ⟨rate_limit_retry_spec.1 [] "u" [(429, ⟨"x"⟩), (429, ⟨"y"⟩)] [] 200 ⟨"ok"⟩
      (by decide) (by decide) (by omega),
    rate_limit_retry_spec.2 [] "u" [] [] 500 ⟨"boom"⟩
      (by decide) (by decide) (by omega) (by omega) (by omega)⟩

/-! ## Claim C8 — the request cache -/

/-- C8 counterexample: two distinct queries map to the same cache key.
`__clean_query` collapses every non-word character to `+`, so the distinct
paper-search queries `"a b"` and `"a.b"` produce the identical resource url
(the cache key), contradicting "two distinct queries never map to the same
cache key". -/
theorem cache_key_collision_cex :
    paperSearchUrl "a b" = paperSearchUrl "a.b" ∧ "a b" ≠ "a.b" ∧
    paperSearchUrl "a b" = "paper/search?query=a+b&fields=authors,title" := by
  refine ⟨by decide, by decide, by decide⟩

/-- C8 amended: requests are cached by their exact resource url (endpoint +
cleaned query); distinct queries may collide when cleaning collapses them,
but for a fixed url the claimed behaviour holds: a cache hit bypasses the
network (0 calls) and returns the identical stored response; issuing the
same request twice in one session performs at most one network call in
total and the second call returns the first's response for free; the cache
is written to durable storage on session release regardless of whether the
run raised; and after reloading it at the next session start a previously
cached request is served without re-fetching. -/
theorem cache_behaviour_amended :
    (∀ (net : String → Json) (cache : Cache) (url : String) (j : Json),
      cacheLookup cache url = some j → getJson net cache url = (j, cache, 0)) ∧
    (∀ (net : String → Json) (cache : Cache) (url : String),
      (getJson net cache url).2.2 ≤ 1 ∧
      getJson net (getJson net cache url).2.1 url =
        ((getJson net cache url).1, (getJson net cache url).2.1, 0)) ∧
    (∀ (cache : Cache) (raised : Bool) (store : Option Cache),
      sessionExit cache raised store = some cache) ∧
    (∀ (net : String → Json) (cache : Cache) (raised : Bool) (store : Option Cache)
      (url : String) (j : Json), cacheLookup cache url = some j →
      getJson net (sessionEnter (sessionExit cache raised store)) url = (j, cache, 0)) := by
  have hit : ∀ (net : String → Json) (cache : Cache) (url : String) (j : Json),
      cacheLookup cache url = some j → getJson net cache url = (j, cache, 0) := by
    intro net cache url j h
    rw [getJson, h]
  refine ⟨hit, fun net cache url => ?_, fun _ _ _ => rfl, fun net cache raised store url j h => hit _ _ _ _ h⟩
  cases h : cacheLookup cache url with
  | some j =>
    have e := hit net cache url j h
    rw [e]
    refine ⟨by simp, ?_⟩
    simpa using e
  | none =>
    have e : getJson net cache url = (net url, cache ++ [(url, net url)], 1) := by
      rw [getJson, h]
    rw [e]
    refine ⟨by simp, ?_⟩
    simpa using hit net _ url (net url) (cacheLookup_append_miss cache url (net url) h)

/-- Witness for C8 amended: a concrete cached entry is served without a
network call, in-session and across a session boundary (including a raising
run). -/
theorem cache_behaviour_amended_witness :
    getJson (fun _ => ⟨"fresh"⟩) [("u", ⟨"stored"⟩)] "u" = (⟨"stored"⟩, [("u", ⟨"stored"⟩)], 0) ∧
    getJson (fun _ => ⟨"fresh"⟩)
        (sessionEnter (sessionExit [("u", ⟨"stored"⟩)] true none)) "u" =
      (⟨"stored"⟩, [("u", ⟨"stored"⟩)], 0) :=
  ⟨cache_behaviour_amended.1 (fun _ => ⟨"fresh"⟩) [("u", ⟨"stored"⟩)] "u" ⟨"stored"⟩ (by decide),
    cache_behaviour_amended.2.2.2 (fun _ => ⟨"fresh"⟩) [("u", ⟨"stored"⟩)] true none "u"
      ⟨"stored"⟩ (by decide)⟩

/-! ## Claim C1 — the assignment step of the Authorship Linker -/

/-- C1 failing input (scenario A): the external record for paper `t` lists
authors `("1", "liam watts")` and `("2", "zed zed")` matching the local
authorships `liam watts`, `zed zed` exactly.  The assignment step passes
the author ID string, not the candidate's name, into `name_distance`
(`name_distance(author_id, authorship.author_name)`), and ranges over all
authorships rather than the still-unassigned ones: both ids are nearest to
`zed zed` (distance 7 versus 10), so `zed zed` is written twice (first
`"1"`, then overwritten with `"2"`) while `liam watts` — whose name is at
distance 0 from candidate `liam watts` — stays unlinked.  The claimed
algorithm would link `liam watts ↦ "1"` and `zed zed ↦ "2"`. -/
theorem linker_assignment_failing_input :
    get_author_data apiA papersA =
      some ⟨[⟨"liam watts", "1"⟩, ⟨"zed zed", "2"⟩],
        [⟨"t", "Long", [⟨"t", "liam watts", none⟩, ⟨"t", "zed zed", some "2"⟩]⟩],
        [(0, 1, "1"), (0, 1, "2")], ["1", "2"]⟩ ∧
    name_distance "1" "liam watts" = some 10 ∧
    name_distance "1" "zed zed" = some 7 ∧
    name_distance "liam watts" "liam watts" = some 0 := by
  refine ⟨by decide, by decide, by decide, by decide⟩

/-! ## Claim C2 — uniqueness and at-most-once writes -/

/-- C2 counterexample: on scenario B (two distinct papers sharing title
`t`) the run leaves two `Authorship` records with the same title holding
the same non-null id `"A"`; and on scenario A the write log shows the
authorship at position 1 of paper 0 being written twice (`"1"`, then
`"2"`), so `author_id` is not written at most once. -/
theorem authorship_unique_cex :
    (get_author_data apiB papersB).map (fun r => r.papers.map Paper.authorships) =
      some [[⟨"t", "ann lee", some "A"⟩], [⟨"t", "ann lee", some "A"⟩]] ∧
    (get_author_data apiA papersA).map LinkResult.writes =
      some [(0, 1, "1"), (0, 1, "2")] := by
  refine ⟨by decide, by decide⟩

/-! ## Claim C3 — the coverage invariant -/

/-- C3 failing input (scenario C): the external record lists two resolvable
authors `x1`, `x2` but the local paper has a single authorship whose name
is far from both (distance ≥ 5) and the author counts differ, so neither
id is committed; the run still returns both `Author` objects.  The set of
returned author ids `{x1, x2}` therefore differs from the set of assigned
`author_id`s (empty), although the repository's own test asserts their
equality (`authors_with_papers == set(author_id_map.keys())`). -/
theorem coverage_failing_input :
    (get_author_data apiC papersC).map
        (fun r => (r.authors.map Author.author_id,
          r.papers.map (fun p => p.authorships.map Authorship.author_id))) =
      some (["x1", "x2"], [[none]]) := by decide

/-! ## Claim C5 — the author identity cache -/

/-- C5 counterexample (scenario D): paper `t1` lists author id `A`, whose
fetched record carries the corrected id `B`; the run emits `Author B` and
records `A` in `seen_author_ids`.  When paper `t2` lists the corrected id
`B` directly, `B` is not in the seen set, so the author is fetched again
(fetch log `["A", "B"]`) and emitted again: two `Author` objects with
`author_id = "B"` are produced in one run, refuting "never fetched or
emitted again". -/
theorem identity_cache_cex :
    (get_author_data apiD papersD).map (fun r => (r.authors, r.fetches)) =
      some ([⟨"n a", "B"⟩, ⟨"n b", "B"⟩], ["A", "B"]) := by decide

/-! ## Claim C4 — author matching by co-author overlap -/

/-- C4 counterexample: a non-empty candidate list in which no candidate has
any co-author overlap (the single candidate `X` has no papers at all).  The
current `_find_matching_author` scores every candidate — zero included —
and `max` then returns candidate `X` instead of the `None` the claim
requires. -/
theorem author_matcher_zero_overlap_cex :
    findMatchingAuthor [⟨"X", []⟩] ⟨"pid", "Some Title", [⟨some "Y", "co"⟩]⟩ =
      some "X" := by decide

/-! ## Lemmas about the linker loop body -/

theorem assignPhase_state {paperJson : PaperJson} {paperIdx : Nat} {st : LinkState}
    {auths : List Authorship} {authorId : Option String} {st' : LinkState}
    {auths' : List Authorship}
    (h : assignPhase paperJson paperIdx st auths authorId = some (st', auths')) :
    st'.authors = st.authors ∧ st'.seen = st.seen ∧ st'.fetches = st.fetches ∧
      st'.corrected = st.corrected := by
  unfold assignPhase at h
  cases hcid : correctId st.corrected authorId with
  | none => rw [hcid] at h; simp at h
  | some v =>
    rw [hcid] at h
    dsimp only [] at h
    cases hds : distancesFor v auths with
    | none => rw [hds] at h; simp at h
    | some ds =>
      rw [hds] at h
      dsimp only [] at h
      cases hmin : argminIdx ds with
      | none => rw [hmin] at h; simp at h
      | some i =>
        rw [hmin] at h
        dsimp only [] at h
        by_cases hcond : paperJson.authors.length = auths.length ∨ ds.getD i 0 < 5
        · rw [if_pos hcond] at h
          simp only [Option.some.injEq, Prod.mk.injEq] at h
          obtain ⟨h1, _⟩ := h
          subst h1
          exact ⟨rfl, rfl, rfl, rfl⟩
        · rw [if_neg hcond] at h
          simp only [Option.some.injEq, Prod.mk.injEq] at h
          obtain ⟨h1, _⟩ := h
          subst h1
          exact ⟨rfl, rfl, rfl, rfl⟩

theorem assignPhase_auths {paperJson : PaperJson} {paperIdx : Nat} {st : LinkState}
    {auths : List Authorship} {authorId : Option String} {st' : LinkState}
    {auths' : List Authorship}
    (h : assignPhase paperJson paperIdx st auths authorId = some (st', auths')) :
    auths' = auths ∨ ∃ v ds i, distancesFor v auths = some ds ∧ argminIdx ds = some i ∧
      auths' = setAuthorId auths i v := by
  unfold assignPhase at h
  cases hcid : correctId st.corrected authorId with
  | none => rw [hcid] at h; simp at h
  | some v =>
    rw [hcid] at h
    dsimp only [] at h
    cases hds : distancesFor v auths with
    | none => rw [hds] at h; simp at h
    | some ds =>
      rw [hds] at h
      dsimp only [] at h
      cases hmin : argminIdx ds with
      | none => rw [hmin] at h; simp at h
      | some i =>
        rw [hmin] at h
        dsimp only [] at h
        by_cases hcond : paperJson.authors.length = auths.length ∨ ds.getD i 0 < 5
        · rw [if_pos hcond] at h
          simp only [Option.some.injEq, Prod.mk.injEq] at h
          exact Or.inr ⟨v, ds, i, hds, hmin, h.2.symm⟩
        · rw [if_neg hcond] at h
          simp only [Option.some.injEq, Prod.mk.injEq] at h
          exact Or.inl h.2.symm

theorem extractPhase_cacheInv {api : Api} {paperJson : PaperJson} {st : LinkState}
    {authorIdJson : AuthorIdJson}
    (Ha : ∀ s, (api.getAuthor s).author_id = s)
    (hentry : ∃ s, authorIdJson.authorId = some s ∧ s ≠ "")
    (hinv : CacheInv st) :
    CacheInv (extractPhase api paperJson st authorIdJson).1 := by
  obtain ⟨s, hs, hne⟩ := hentry
  by_cases hmem : s ∈ st.seen
  · have hid : (extractPhase api paperJson st authorIdJson).1 = st := by
      simp [extractPhase, hs, hmem]
    rw [hid]
    exact hinv
  · have hextract : extract_author api authorIdJson paperJson =
        (some (api.getAuthor s), [s]) := by
      simp [extract_author, hs, hne]
    have hres : (extractPhase api paperJson st authorIdJson).1 =
        { st with
          authors := st.authors ++ [api.getAuthor s]
          fetches := st.fetches ++ [s]
          seen := st.seen ++ [s] } := by
      simp [extractPhase, hs, hmem, hextract, hne, Ha s]
    rw [hres]
    obtain ⟨h1, h2, h3⟩ := hinv
    have hnf : s ∉ st.fetches := fun hc => hmem ((h3 s).mp hc)
    refine ⟨?_, ?_, ?_⟩
    · simp [h1, Ha s]
    · simp [List.nodup_append, h2, hnf]
    · intro x
      simp [List.mem_append, h3 x]

theorem processAuthorIdJson_cacheInv {api : Api} {paperJson : PaperJson} {paperIdx : Nat}
    {st : LinkState} {auths : List Authorship} {authorIdJson : AuthorIdJson}
    {st' : LinkState} {auths' : List Authorship}
    (Ha : ∀ s, (api.getAuthor s).author_id = s)
    (hentry : ∃ s, authorIdJson.authorId = some s ∧ s ≠ "")
    (h : processAuthorIdJson api paperJson paperIdx st auths authorIdJson =
      some (st', auths'))
    (hinv : CacheInv st) : CacheInv st' := by
  unfold processAuthorIdJson at h
  cases hep : extractPhase api paperJson st authorIdJson with
  | mk st1 flag =>
    have hinv1 : CacheInv st1 := by
      have hx := @extractPhase_cacheInv api paperJson st authorIdJson Ha hentry hinv
      rwa [hep] at hx
    rw [hep] at h
    cases flag with
    | true =>
      simp only [Option.some.injEq, Prod.mk.injEq] at h
      obtain ⟨h1, _⟩ := h
      exact h1 ▸ hinv1
    | false =>
      obtain ⟨ha, hsn, hf, _⟩ := assignPhase_state h
      refine ⟨?_, ?_, ?_⟩
      · rw [ha, hf]; exact hinv1.1
      · rw [hf]; exact hinv1.2.1
      · intro x; rw [hf, hsn]; exact hinv1.2.2 x

theorem foldAuthors_cacheInv {api : Api} {paperJson : PaperJson} {paperIdx : Nat}
    (Ha : ∀ s, (api.getAuthor s).author_id = s) :
    ∀ (l : List AuthorIdJson) (st : LinkState) (auths : List Authorship)
      (st' : LinkState) (auths' : List Authorship),
      (∀ aj ∈ l, ∃ s, aj.authorId = some s ∧ s ≠ "") → CacheInv st →
      l.foldlM (fun acc aj => processAuthorIdJson api paperJson paperIdx acc.1 acc.2 aj)
        ((st, auths) : LinkState × List Authorship) = some (st', auths') →
      CacheInv st' := by
  intro l
  induction l with
  | nil =>
    intro st auths st' auths' _ hinv h
    simp only [List.foldlM_nil, pure, Option.some.injEq, Prod.mk.injEq] at h
    exact h.1 ▸ hinv
  | cons aj rest ih =>
    intro st auths st' auths' hl hinv h
    rw [List.foldlM_cons] at h
    cases hstep : processAuthorIdJson api paperJson paperIdx st auths aj with
    | none => rw [hstep] at h; simp at h
    | some acc1 =>
      rw [hstep] at h
      simp only [Option.bind_eq_bind, Option.some_bind'] at h
      obtain ⟨st1, auths1⟩ := acc1
      have hinv1 : CacheInv st1 :=
        processAuthorIdJson_cacheInv Ha (hl aj (List.mem_cons_self _ _)) hstep hinv
      exact ih st1 auths1 st' auths'
        (fun x hx => hl x (List.mem_cons_of_mem _ hx)) hinv1 h

theorem processPaper_cacheInv {api : Api} {paperIdx : Nat} {st : LinkState}
    {paper : Paper} {st' : LinkState} {paper' : Paper}
    (Ha : ∀ s, (api.getAuthor s).author_id = s)
    (Hp : ∀ t ns pj, api.getPaper t ns = some pj →
      ∀ aj ∈ pj.authors, ∃ s, aj.authorId = some s ∧ s ≠ "")
    (h : processPaper api paperIdx st paper = some (st', paper'))
    (hinv : CacheInv st) : CacheInv st' := by
  unfold processPaper at h
  cases hgp : api.getPaper paper.title (paper.authorships.map (fun a => a.author_name)) with
  | none =>
    rw [hgp] at h
    simp only [Option.some.injEq, Prod.mk.injEq] at h
    exact h.1 ▸ hinv
  | some paperJson =>
    rw [hgp] at h
    dsimp only [] at h
    cases hfold : paperJson.authors.foldlM
        (fun acc aj => processAuthorIdJson api paperJson paperIdx acc.1 acc.2 aj)
        ((st, paper.authorships) : LinkState × List Authorship) with
    | none => rw [hfold] at h; simp at h
    | some res =>
      rw [hfold] at h
      dsimp only [] at h
      obtain ⟨st1, auths1⟩ := res
      simp only [Option.some.injEq, Prod.mk.injEq] at h
      have := foldAuthors_cacheInv Ha paperJson.authors st paper.authorships st1 auths1
        (Hp _ _ _ hgp) hinv hfold
      exact h.1 ▸ this

theorem linkPapers_cacheInv {api : Api}
    (Ha : ∀ s, (api.getAuthor s).author_id = s)
    (Hp : ∀ t ns pj, api.getPaper t ns = some pj →
      ∀ aj ∈ pj.authors, ∃ s, aj.authorId = some s ∧ s ≠ "") :
    ∀ (ps : List Paper) (idx : Nat) (st : LinkState) (st' : LinkState) (ps' : List Paper),
      CacheInv st → linkPapers api idx st ps = some (st', ps') → CacheInv st' := by
  intro ps
  induction ps with
  | nil =>
    intro idx st st' ps' hinv h
    simp only [linkPapers, Option.some.injEq, Prod.mk.injEq] at h
    exact h.1 ▸ hinv
  | cons p rest ih =>
    intro idx st st' ps' hinv h
    unfold linkPapers at h
    cases h1 : processPaper api idx st p with
    | none => rw [h1] at h; simp at h
    | some r1 =>
      rw [h1] at h
      simp only [Option.bind_eq_bind, Option.some_bind] at h
      cases h2 : linkPapers api (idx + 1) r1.1 rest with
      | none => rw [h2] at h; simp at h
      | some r2 =>
        rw [h2] at h
        simp only [Option.some_bind, pure, Option.some.injEq, Prod.mk.injEq] at h
        have hinv1 : CacheInv r1.1 := processPaper_cacheInv Ha Hp h1 hinv
        have hinv2 : CacheInv r2.1 := ih (idx + 1) r1.1 r2.1 r2.2 hinv1 (by rw [h2])
        exact h.1 ▸ hinv2

/-! ## Lemmas about the score dictionaries of the author matchers -/

theorem insertScore_ne_nil (l : List (String × Nat)) (k : String) (n : Nat) :
    insertScore l k n ≠ [] := by
  cases l with
  | nil => simp [insertScore]
  | cons e rest =>
    obtain ⟨k0, v0⟩ := e
    by_cases h : k0 = k <;> simp [insertScore, h]

theorem foldInsert_ne_nil (coIds : List (Option String)) :
    ∀ (cands : List AuthorWithPapers) (sc : List (String × Nat)), sc ≠ [] →
      cands.foldl (fun sc1 a => insertScore sc1 a.authorId (countMatches coIds a)) sc ≠
        [] := by
  intro cands
  induction cands with
  | nil => intro sc h; simpa using h
  | cons c rest ih =>
    intro sc _
    simp only [List.foldl_cons]
    exact ih _ (insertScore_ne_nil _ _ _)

theorem dictMax_isSome {l : List (String × Nat)} (h : l ≠ []) :
    (dictMax l).isSome = true := by
  cases l with
  | nil => exact absurd rfl h
  | cons e rest => obtain ⟨k, v⟩ := e; rfl

theorem insertScore_fresh :
    ∀ (l : List (String × Nat)) (k : String) (n : Nat),
      k ∉ l.map Prod.fst → insertScore l k n = l ++ [(k, n)] := by
  intro l
  induction l with
  | nil => intro k n _; rfl
  | cons e rest ih =>
    intro k n h
    obtain ⟨k0, v0⟩ := e
    simp only [List.map_cons, List.mem_cons] at h
    push_neg at h
    have hne : ¬(k0 = k) := fun hc => h.1 hc.symm
    simp only [insertScore, if_neg hne, List.cons_append]
    rw [ih k n h.2]

theorem authorScoresNew_fold_eq (coIds : List (Option String)) :
    ∀ (cands : List AuthorWithPapers) (sc : List (String × Nat)),
      (cands.map (fun a => a.authorId)).Nodup →
      (∀ c ∈ cands, c.authorId ∉ sc.map Prod.fst) →
      cands.foldl (fun sc1 a => insertScore sc1 a.authorId (countMatches coIds a)) sc =
        sc ++ cands.map (fun a => (a.authorId, countMatches coIds a)) := by
  intro cands
  induction cands with
  | nil => intro sc _ _; simp
  | cons c rest ih =>
    intro sc hnd hfresh
    simp only [List.map_cons, List.nodup_cons] at hnd
    simp only [List.foldl_cons]
    rw [insertScore_fresh sc c.authorId _ (hfresh c (List.mem_cons_self _ _))]
    rw [ih (sc ++ [(c.authorId, countMatches coIds c)]) hnd.2 ?fresh]
    · simp [List.append_assoc]
    case fresh =>
      intro x hx
      simp only [List.map_append, List.mem_append, List.map_cons, List.map_nil]
      push_neg
      refine ⟨hfresh x (List.mem_cons_of_mem _ hx), ?_⟩
      simp only [List.mem_singleton]
      intro hc
      exact hnd.1 (hc ▸ List.mem_map_of_mem (fun a => a.authorId) hx)

theorem dictMaxGo_le :
    ∀ (l : List (String × Nat)) (k : String) (v : Nat),
      (∀ e ∈ l, e.2 ≤ v) → dictMaxGo k v l = k := by
  intro l
  induction l with
  | nil => intro k v _; rfl
  | cons e rest ih =>
    intro k v h
    obtain ⟨k1, v1⟩ := e
    have h1 : v1 ≤ v := h (k1, v1) (List.mem_cons_self _ _)
    simp only [dictMaxGo, if_neg (Nat.not_lt.mpr h1)]
    exact ih k v (fun x hx => h x (List.mem_cons_of_mem _ hx))

theorem dictMaxGo_strict {k : String} {v : Nat} {l2 : List (String × Nat)}
    (h2 : ∀ e ∈ l2, e.2 < v) :
    ∀ (l1 : List (String × Nat)) (k0 : String) (v0 : Nat), v0 < v →
      (∀ e ∈ l1, e.2 < v) → dictMaxGo k0 v0 (l1 ++ (k, v) :: l2) = k := by
  intro l1
  induction l1 with
  | nil =>
    intro k0 v0 h0 _
    simp only [List.nil_append, dictMaxGo, if_pos h0]
    exact dictMaxGo_le l2 k v (fun e he => Nat.le_of_lt (h2 e he))
  | cons e l1 ih =>
    intro k0 v0 h0 h1
    obtain ⟨k1, v1⟩ := e
    have hv1 : v1 < v := h1 (k1, v1) (List.mem_cons_self _ _)
    have htail : ∀ e ∈ l1, e.2 < v := fun x hx => h1 x (List.mem_cons_of_mem _ hx)
    simp only [List.cons_append, dictMaxGo]
    by_cases hc : v0 < v1
    · rw [if_pos hc]; exact ih k1 v1 hv1 htail
    · rw [if_neg hc]; exact ih k0 v0 h0 htail

theorem dictMax_strict {k : String} {v : Nat} {l1 l2 : List (String × Nat)}
    (h1 : ∀ e ∈ l1, e.2 < v) (h2 : ∀ e ∈ l2, e.2 < v) :
    dictMax (l1 ++ (k, v) :: l2) = some k := by
  cases l1 with
  | nil =>
    simp only [List.nil_append, dictMax, Option.some.injEq]
    exact dictMaxGo_le l2 k v (fun e he => Nat.le_of_lt (h2 e he))
  | cons e l1 =>
    obtain ⟨k1, v1⟩ := e
    simp only [List.cons_append, dictMax, Option.some.injEq]
    exact dictMaxGo_strict h2 l1 k1 v1 (h1 (k1, v1) (List.mem_cons_self _ _))
      (fun x hx => h1 x (List.mem_cons_of_mem _ hx))

theorem bumpScore_fresh :
    ∀ (l : List (String × Nat)) (k : String),
      k ∉ l.map Prod.fst → bumpScore l k = l ++ [(k, 1)] := by
  intro l
  induction l with
  | nil => intro k _; rfl
  | cons e rest ih =>
    intro k h
    obtain ⟨k0, v0⟩ := e
    simp only [List.map_cons, List.mem_cons] at h
    push_neg at h
    have hne : ¬(k0 = k) := fun hc => h.1 hc.symm
    simp only [bumpScore, if_neg hne, List.cons_append]
    rw [ih k h.2]

theorem bumpScore_snoc :
    ∀ (l : List (String × Nat)) (k : String) (m : Nat),
      k ∉ l.map Prod.fst → bumpScore (l ++ [(k, m)]) k = l ++ [(k, m + 1)] := by
  intro l
  induction l with
  | nil => intro k m _; simp [bumpScore]
  | cons e rest ih =>
    intro k m h
    obtain ⟨k0, v0⟩ := e
    simp only [List.map_cons, List.mem_cons] at h
    push_neg at h
    have hne : ¬(k0 = k) := fun hc => h.1 hc.symm
    simp only [List.cons_append, bumpScore, if_neg hne]
    exact congrArg (List.cons (k0, v0)) (ih k m h.2)

theorem innerFold_snoc (coIds : List (Option String)) (k : String) :
    ∀ (occs : List CoAuthorJson) (l : List (String × Nat)) (m : Nat),
      k ∉ l.map Prod.fst →
      occs.foldl (fun sc1 c => if c.authorId ∈ coIds then bumpScore sc1 k else sc1)
          (l ++ [(k, m)]) =
        l ++ [(k, m + occs.countP (fun c => decide (c.authorId ∈ coIds)))] := by
  intro occs
  induction occs with
  | nil => intro l m _; simp
  | cons x rest ih =>
    intro l m h
    by_cases hx : x.authorId ∈ coIds
    · simp only [List.foldl_cons, if_pos hx]
      rw [bumpScore_snoc l k m h, ih l (m + 1) h, List.countP_cons_of_pos _ _ (by simpa)]
      have harith : m + 1 + rest.countP (fun c => decide (c.authorId ∈ coIds)) =
          m + (rest.countP (fun c => decide (c.authorId ∈ coIds)) + 1) := by omega
      rw [harith]
    · simp only [List.foldl_cons, if_neg hx]
      rw [ih l m h, List.countP_cons_of_neg _ _ (by simpa)]

theorem innerFold_fresh (coIds : List (Option String)) (k : String) :
    ∀ (occs : List CoAuthorJson) (l : List (String × Nat)),
      k ∉ l.map Prod.fst →
      occs.foldl (fun sc1 c => if c.authorId ∈ coIds then bumpScore sc1 k else sc1) l =
        (if occs.countP (fun c => decide (c.authorId ∈ coIds)) = 0 then l
          else l ++ [(k, occs.countP (fun c => decide (c.authorId ∈ coIds)))]) := by
  intro occs
  induction occs with
  | nil => intro l _; simp
  | cons x rest ih =>
    intro l h
    by_cases hx : x.authorId ∈ coIds
    · simp only [List.foldl_cons, if_pos hx]
      rw [bumpScore_fresh l k h]
      rw [innerFold_snoc coIds k rest l 1 h, List.countP_cons_of_pos _ _ (by simpa)]
      rw [if_neg (by omega)]
      have harith : 1 + rest.countP (fun c => decide (c.authorId ∈ coIds)) =
          rest.countP (fun c => decide (c.authorId ∈ coIds)) + 1 := by omega
      rw [harith]
    · simp only [List.foldl_cons, if_neg hx]
      rw [ih l h, List.countP_cons_of_neg _ _ (by simpa)]

theorem authorScoresOld_fold_eq (coIds : List (Option String)) :
    ∀ (cands : List AuthorWithPapers) (sc : List (String × Nat)),
      (cands.map (fun a => a.authorId)).Nodup →
      (∀ c ∈ cands, c.authorId ∉ sc.map Prod.fst) →
      cands.foldl
          (fun sc1 a =>
            ((a.papers.map (fun p => p.authors)).flatten).foldl
              (fun sc2 c => if c.authorId ∈ coIds then bumpScore sc2 a.authorId else sc2)
              sc1)
          sc =
        sc ++ (cands.filter (fun a => decide (0 < countMatches coIds a))).map
          (fun a => (a.authorId, countMatches coIds a)) := by
  intro cands
  induction cands with
  | nil => intro sc _ _; simp
  | cons c rest ih =>
    intro sc hnd hfresh
    simp only [List.map_cons, List.nodup_cons] at hnd
    simp only [List.foldl_cons]
    rw [innerFold_fresh coIds c.authorId _ sc (hfresh c (List.mem_cons_self _ _))]
    by_cases hz : ((c.papers.map (fun p => p.authors)).flatten).countP
        (fun x => decide (x.authorId ∈ coIds)) = 0
    · rw [if_pos hz]
      rw [ih sc hnd.2 (fun x hx => hfresh x (List.mem_cons_of_mem _ hx))]
      have hcz : countMatches coIds c = 0 := hz
      rw [List.filter_cons_of_neg (by simp [hcz])]
    · rw [if_neg hz]
      have hcnt : countMatches coIds c =
          ((c.papers.map (fun p => p.authors)).flatten).countP
            (fun x => decide (x.authorId ∈ coIds)) := rfl
      rw [ih (sc ++ [(c.authorId,
        ((c.papers.map (fun p => p.authors)).flatten).countP
          (fun x => decide (x.authorId ∈ coIds)))]) hnd.2 ?fresh]
      · rw [List.filter_cons_of_pos (by simp only [hcnt]; simpa using Nat.pos_of_ne_zero hz)]
        simp [List.append_assoc, hcnt]
      case fresh =>
        intro x hx
        simp only [List.map_append, List.mem_append, List.map_cons, List.map_nil]
        push_neg
        refine ⟨hfresh x (List.mem_cons_of_mem _ hx), ?_⟩
        simp only [List.mem_singleton]
        intro hc
        exact hnd.1 (hc ▸ List.mem_map_of_mem (fun a => a.authorId) hx)

theorem innerFold_zero (coIds : List (Option String)) (k : String) :
    ∀ (occs : List CoAuthorJson) (sc : List (String × Nat)),
      (∀ x ∈ occs, x.authorId ∉ coIds) →
      occs.foldl (fun sc1 c => if c.authorId ∈ coIds then bumpScore sc1 k else sc1) sc =
        sc := by
  intro occs
  induction occs with
  | nil => intro sc _; rfl
  | cons x rest ih =>
    intro sc hx
    simp only [List.foldl_cons, if_neg (hx x (List.mem_cons_self _ _))]
    exact ih sc (fun y hy => hx y (List.mem_cons_of_mem _ hy))

theorem authorScoresOld_zero (coIds : List (Option String)) :
    ∀ (cands : List AuthorWithPapers),
      (∀ c ∈ cands, countMatches coIds c = 0) → authorScoresOld coIds cands = [] := by
  have haux : ∀ (cands : List AuthorWithPapers) (sc : List (String × Nat)),
      (∀ c ∈ cands, countMatches coIds c = 0) →
      cands.foldl
          (fun sc1 a =>
            ((a.papers.map (fun p => p.authors)).flatten).foldl
              (fun sc2 c => if c.authorId ∈ coIds then bumpScore sc2 a.authorId else sc2)
              sc1)
          sc = sc := by
    intro cands
    induction cands with
    | nil => intro sc _; rfl
    | cons c rest ih =>
      intro sc hz
      simp only [List.foldl_cons]
      have hocc : ∀ x ∈ (c.papers.map (fun p => p.authors)).flatten,
          x.authorId ∉ coIds := by
        have hc := hz c (List.mem_cons_self _ _)
        unfold countMatches at hc
        intro x hx
        have hy := List.countP_eq_zero.mp hc x hx
        simpa using hy
      rw [innerFold_zero coIds c.authorId _ sc hocc]
      exact ih sc (fun y hy => hz y (List.mem_cons_of_mem _ hy))
  intro cands hz
  exact haux cands [] hz

theorem search_author_zero {cands : List AuthorWithPapers} {paperJson : PaperJson}
    (h : ∀ c ∈ cands,
      countMatches (paperJson.authors.map (fun a => a.authorId)) c = 0) :
    search_author cands paperJson = none := by
  unfold search_author
  dsimp only []
  rw [authorScoresOld_zero _ cands h]
  rfl

theorem search_author_strict {cands : List AuthorWithPapers} {paperJson : PaperJson}
    {c : AuthorWithPapers} (hmem : c ∈ cands)
    (hnd : (cands.map (fun a => a.authorId)).Nodup)
    (hpos : 0 < countMatches (paperJson.authors.map (fun a => a.authorId)) c)
    (hmax : ∀ c' ∈ cands, c'.authorId ≠ c.authorId →
      countMatches (paperJson.authors.map (fun a => a.authorId)) c' <
        countMatches (paperJson.authors.map (fun a => a.authorId)) c) :
    search_author cands paperJson = some c.authorId := by
  obtain ⟨l1, l2, rfl⟩ := List.append_of_mem hmem
  have hnd' : (l1.map (fun a => a.authorId) ++
      c.authorId :: l2.map (fun a => a.authorId)).Nodup := by
    simpa [List.map_append] using hnd
  rw [List.nodup_append] at hnd'
  have hc1 : c.authorId ∉ l1.map (fun a => a.authorId) := by
    intro hin
    exact (hnd'.2.2 hin) (List.mem_cons_self _ _)
  have hc2 : c.authorId ∉ l2.map (fun a => a.authorId) :=
    (List.nodup_cons.mp hnd'.2.1).1
  unfold search_author
  dsimp only []
  have heq : authorScoresOld (paperJson.authors.map (fun a => a.authorId)) (l1 ++ c :: l2) =
      [] ++ ((l1 ++ c :: l2).filter
          (fun a => decide (0 <
            countMatches (paperJson.authors.map (fun a => a.authorId)) a))).map
        (fun a => (a.authorId,
          countMatches (paperJson.authors.map (fun a => a.authorId)) a)) :=
    authorScoresOld_fold_eq _ (l1 ++ c :: l2) [] hnd (by simp)
  rw [heq, List.nil_append, List.filter_append,
    List.filter_cons_of_pos (by simpa using hpos), List.map_append, List.map_cons]
  apply dictMax_strict
  · intro e he
    simp only [List.mem_map, List.mem_filter] at he
    obtain ⟨a, ⟨ha1, _⟩, rfl⟩ := he
    have hne : a.authorId ≠ c.authorId := by
      intro hc
      exact hc1 (hc ▸ List.mem_map_of_mem (fun a => a.authorId) ha1)
    exact hmax a (List.mem_append_left _ ha1) hne
  · intro e he
    simp only [List.mem_map, List.mem_filter] at he
    obtain ⟨a, ⟨ha1, _⟩, rfl⟩ := he
    have hne : a.authorId ≠ c.authorId := by
      intro hc
      exact hc2 (hc ▸ List.mem_map_of_mem (fun a => a.authorId) ha1)
    exact hmax a (List.mem_append_right _ (List.mem_cons_of_mem _ ha1)) hne

theorem findMatchingAuthor_isSome {cands : List AuthorWithPapers}
    {paper : SemanticScholarPaper} (h : cands ≠ []) :
    (findMatchingAuthor cands paper).isSome = true := by
  cases cands with
  | nil => exact absurd rfl h
  | cons c rest =>
    unfold findMatchingAuthor authorScoresNew
    apply dictMax_isSome
    simp only [List.foldl_cons]
    exact foldInsert_ne_nil _ rest _ (insertScore_ne_nil _ _ _)

theorem findMatchingAuthor_strict {cands : List AuthorWithPapers}
    {paper : SemanticScholarPaper} {c : AuthorWithPapers} (hmem : c ∈ cands)
    (hnd : (cands.map (fun a => a.authorId)).Nodup)
    (hmax : ∀ c' ∈ cands, c'.authorId ≠ c.authorId →
      countMatches (paper.authors.map (fun a => a.authorId)) c' <
        countMatches (paper.authors.map (fun a => a.authorId)) c) :
    findMatchingAuthor cands paper = some c.authorId := by
  obtain ⟨l1, l2, rfl⟩ := List.append_of_mem hmem
  have hnd' : (l1.map (fun a => a.authorId) ++
      c.authorId :: l2.map (fun a => a.authorId)).Nodup := by
    simpa [List.map_append] using hnd
  rw [List.nodup_append] at hnd'
  have hc1 : c.authorId ∉ l1.map (fun a => a.authorId) := by
    intro hin
    exact (hnd'.2.2 hin) (List.mem_cons_self _ _)
  have hc2 : c.authorId ∉ l2.map (fun a => a.authorId) :=
    (List.nodup_cons.mp hnd'.2.1).1
  unfold findMatchingAuthor
  dsimp only []
  have heq : authorScoresNew (paper.authors.map (fun a => a.authorId)) (l1 ++ c :: l2) =
      [] ++ (l1 ++ c :: l2).map
        (fun a => (a.authorId,
          countMatches (paper.authors.map (fun a => a.authorId)) a)) :=
    authorScoresNew_fold_eq _ (l1 ++ c :: l2) [] hnd (by simp)
  rw [heq, List.nil_append, List.map_append, List.map_cons]
  apply dictMax_strict
  · intro e he
    simp only [List.mem_map] at he
    obtain ⟨a, ha1, rfl⟩ := he
    have hne : a.authorId ≠ c.authorId := by
      intro hc
      exact hc1 (hc ▸ List.mem_map_of_mem (fun a => a.authorId) ha1)
    exact hmax a (List.mem_append_left _ ha1) hne
  · intro e he
    simp only [List.mem_map] at he
    obtain ⟨a, ha1, rfl⟩ := he
    have hne : a.authorId ≠ c.authorId := by
      intro hc
      exact hc2 (hc ▸ List.mem_map_of_mem (fun a => a.authorId) ha1)
    exact hmax a (List.mem_append_right _ (List.mem_cons_of_mem _ ha1)) hne

/-- C4 amended: both generations score a candidate by the number of its
co-author occurrences whose id lies in the target paper's author-id set and
return the earliest candidate whose score is strictly highest (stated for
distinct candidate ids).  The legacy `search_author` returns `none` when
the candidate list is empty or no candidate has nonzero overlap; the
current `_find_matching_author` returns `none` only when the candidate list
is empty — on a non-empty all-zero-overlap list it still returns a
candidate (see the counterexample) instead of `none`. -/
theorem author_matcher_amended :
    (∀ (cands : List AuthorWithPapers) (paperJson : PaperJson),
      (∀ c ∈ cands,
        countMatches (paperJson.authors.map (fun a => a.authorId)) c = 0) →
      search_author cands paperJson = none) ∧
    (∀ (cands : List AuthorWithPapers) (paperJson : PaperJson) (c : AuthorWithPapers),
      c ∈ cands → (cands.map (fun a => a.authorId)).Nodup →
      0 < countMatches (paperJson.authors.map (fun a => a.authorId)) c →
      (∀ c' ∈ cands, c'.authorId ≠ c.authorId →
        countMatches (paperJson.authors.map (fun a => a.authorId)) c' <
          countMatches (paperJson.authors.map (fun a => a.authorId)) c) →
      search_author cands paperJson = some c.authorId) ∧
    (∀ paper : SemanticScholarPaper, findMatchingAuthor [] paper = none) ∧
    (∀ (cands : List AuthorWithPapers) (paper : SemanticScholarPaper), cands ≠ [] →
      (findMatchingAuthor cands paper).isSome = true) ∧
    (∀ (cands : List AuthorWithPapers) (paper : SemanticScholarPaper)
      (c : AuthorWithPapers),
      c ∈ cands → (cands.map (fun a => a.authorId)).Nodup →
      (∀ c' ∈ cands, c'.authorId ≠ c.authorId →
        countMatches (paper.authors.map (fun a => a.authorId)) c' <
          countMatches (paper.authors.map (fun a => a.authorId)) c) →
      findMatchingAuthor cands paper = some c.authorId) :=
  ⟨fun _ _ h => search_author_zero h,
    fun _ _ _ hmem hnd hpos hmax => search_author_strict hmem hnd hpos hmax,
    fun _ => rfl,
    fun _ _ h => findMatchingAuthor_isSome h,
    fun _ _ _ hmem hnd hmax => findMatchingAuthor_strict hmem hnd hmax⟩

/-- Witness for C4 amended: among candidates `X` (no papers, overlap 0) and
`Y` (one shared co-author `Z`, overlap 1), the current matcher returns `Y`,
whose overlap is strictly highest. -/
theorem author_matcher_amended_witness :
    findMatchingAuthor [⟨"X", []⟩, ⟨"Y", [⟨"pp", [⟨some "Z"⟩]⟩]⟩]
      ⟨"pid", "T", [⟨some "Z", "n"⟩]⟩ = some (⟨"Y", [⟨"pp", [⟨some "Z"⟩]⟩]⟩ :
        AuthorWithPapers).authorId :=
  author_matcher_amended.2.2.2.2 [⟨"X", []⟩, ⟨"Y", [⟨"pp", [⟨some "Z"⟩]⟩]⟩]
    ⟨"pid", "T", [⟨some "Z", "n"⟩]⟩ ⟨"Y", [⟨"pp", [⟨some "Z"⟩]⟩]⟩
    (by decide) (by decide) (by decide)

theorem distancesFor_setAuthorId (w : String) :
    ∀ (auths : List Authorship) (i : Nat) (v : String),
      distancesFor w (setAuthorId auths i v) = distancesFor w auths := by
  intro auths
  induction auths with
  | nil => intro i v; rfl
  | cons a rest ih =>
    intro i v
    cases i with
    | zero => rfl
    | succ n =>
      show distancesFor w (a :: setAuthorId rest n v) = distancesFor w (a :: rest)
      simp only [distancesFor, List.mapM_cons]
      have hx := ih n v
      simp only [distancesFor] at hx
      rw [hx]

theorem setAuthorId_getElem_ne :
    ∀ (auths : List Authorship) (i j : Nat) (v : String), i ≠ j →
      (setAuthorId auths i v)[j]? = auths[j]? := by
  intro auths
  induction auths with
  | nil => intro i j v _; cases i <;> rfl
  | cons a rest ih =>
    intro i j v hij
    cases i with
    | zero =>
      cases j with
      | zero => exact absurd rfl hij
      | succ m => simp [setAuthorId]
    | succ n =>
      cases j with
      | zero => simp [setAuthorId]
      | succ m =>
        show (a :: setAuthorId rest n v)[m + 1]? = (a :: rest)[m + 1]?
        simp only [List.getElem?_cons_succ]
        exact ih n m v (fun hc => hij (by rw [hc]))

theorem setAuthorId_getElem_eq :
    ∀ (auths : List Authorship) (i : Nat) (v : String),
      (setAuthorId auths i v)[i]? =
        (auths[i]?).map (fun a => { a with author_id := some v }) := by
  intro auths
  induction auths with
  | nil => intro i v; cases i <;> rfl
  | cons a rest ih =>
    intro i v
    cases i with
    | zero => simp [setAuthorId]
    | succ n =>
      show (a :: setAuthorId rest n v)[n + 1]? = _
      simp only [List.getElem?_cons_succ]
      exact ih n v

theorem argminIdxAux_lt :
    ∀ (l : List Nat) (idx best bv : Nat), best < idx →
      argminIdxAux l idx best bv < idx + l.length := by
  intro l
  induction l with
  | nil =>
    intro idx best bv h
    simpa [argminIdxAux] using h
  | cons d rest ih =>
    intro idx best bv h
    simp only [argminIdxAux, List.length_cons]
    by_cases hd : d < bv
    · rw [if_pos hd]
      have hx := ih (idx + 1) idx d (Nat.lt_succ_self idx)
      omega
    · rw [if_neg hd]
      have hx := ih (idx + 1) best bv (by omega)
      omega

theorem argminIdx_lt {ds : List Nat} {i : Nat} (h : argminIdx ds = some i) :
    i < ds.length := by
  cases ds with
  | nil => simp [argminIdx] at h
  | cons d rest =>
    simp only [argminIdx, Option.some.injEq] at h
    subst h
    have hx := argminIdxAux_lt rest 1 0 d (by omega)
    simp only [List.length_cons]
    omega

theorem distancesFor_length :
    ∀ (v : String) (auths : List Authorship) (ds : List Nat),
      distancesFor v auths = some ds → ds.length = auths.length := by
  intro v auths
  induction auths with
  | nil =>
    intro ds h
    simp only [distancesFor, List.mapM_nil, pure, Option.some.injEq] at h
    subst h; rfl
  | cons a rest ih =>
    intro ds h
    simp only [distancesFor, List.mapM_cons] at h
    cases hd : name_distance v a.author_name with
    | none => rw [hd] at h; simp at h
    | some d =>
      rw [hd] at h
      simp only [Option.bind_eq_bind, Option.some_bind'] at h
      cases hrest : rest.mapM (fun a => name_distance v a.author_name) with
      | none => rw [hrest] at h; simp at h
      | some drest =>
        rw [hrest] at h
        simp only [Option.bind_eq_bind, Option.some_bind', pure, Option.some.injEq] at h
        subst h
        have hx := ih drest (by simpa [distancesFor] using hrest)
        simp [List.length_cons, hx]

theorem assignPhase_assignInv {paperJson : PaperJson} {paperIdx : Nat} {st : LinkState}
    {auths : List Authorship} {authorId : Option String} {st' : LinkState}
    {auths' : List Authorship}
    (h : assignPhase paperJson paperIdx st auths authorId = some (st', auths'))
    (hinv : AssignInv auths) : AssignInv auths' := by
  rcases assignPhase_auths h with heq | ⟨v, ds, i, hds, hmin, heq⟩
  · exact heq ▸ hinv
  · subst heq
    intro j a hj w hw
    rw [distancesFor_setAuthorId]
    by_cases hij : i = j
    · subst hij
      rw [setAuthorId_getElem_eq] at hj
      cases horig : auths[i]? with
      | none => rw [horig] at hj; simp at hj
      | some orig =>
        rw [horig] at hj
        simp only [Option.map_some', Option.some.injEq] at hj
        have hwv : v = w := by
          rw [← hj] at hw
          simpa using hw
        subst hwv
        rw [hds]
        simpa using hmin
    · rw [setAuthorId_getElem_ne auths i j v hij] at hj
      exact hinv j a hj w hw

theorem processAuthorIdJson_assignInv {api : Api} {paperJson : PaperJson} {paperIdx : Nat}
    {st : LinkState} {auths : List Authorship} {authorIdJson : AuthorIdJson}
    {st' : LinkState} {auths' : List Authorship}
    (h : processAuthorIdJson api paperJson paperIdx st auths authorIdJson =
      some (st', auths'))
    (hinv : AssignInv auths) : AssignInv auths' := by
  unfold processAuthorIdJson at h
  cases hep : extractPhase api paperJson st authorIdJson with
  | mk st1 flag =>
    rw [hep] at h
    cases flag with
    | true =>
      simp only [Option.some.injEq, Prod.mk.injEq] at h
      exact h.2 ▸ hinv
    | false => exact assignPhase_assignInv h hinv

theorem foldAuthors_assignInv {api : Api} {paperJson : PaperJson} {paperIdx : Nat} :
    ∀ (l : List AuthorIdJson) (st : LinkState) (auths : List Authorship)
      (st' : LinkState) (auths' : List Authorship),
      AssignInv auths →
      l.foldlM (fun acc aj => processAuthorIdJson api paperJson paperIdx acc.1 acc.2 aj)
        ((st, auths) : LinkState × List Authorship) = some (st', auths') →
      AssignInv auths' := by
  intro l
  induction l with
  | nil =>
    intro st auths st' auths' hinv h
    simp only [List.foldlM_nil, pure, Option.some.injEq, Prod.mk.injEq] at h
    exact h.2 ▸ hinv
  | cons aj rest ih =>
    intro st auths st' auths' hinv h
    rw [List.foldlM_cons] at h
    cases hstep : processAuthorIdJson api paperJson paperIdx st auths aj with
    | none => rw [hstep] at h; simp at h
    | some acc1 =>
      rw [hstep] at h
      simp only [Option.bind_eq_bind, Option.some_bind'] at h
      obtain ⟨st1, auths1⟩ := acc1
      exact ih st1 auths1 st' auths' (processAuthorIdJson_assignInv hstep hinv) h

theorem assignInv_of_unassigned {auths : List Authorship}
    (h : ∀ a ∈ auths, a.author_id = none) : AssignInv auths := by
  intro i a ha v hv
  have hmem : a ∈ auths := by
    have := List.getElem?_mem ha
    exact this
  rw [h a hmem] at hv
  cases hv

theorem processPaper_assignInv {api : Api} {paperIdx : Nat} {st : LinkState}
    {paper : Paper} {st' : LinkState} {paper' : Paper}
    (h : processPaper api paperIdx st paper = some (st', paper'))
    (hun : ∀ a ∈ paper.authorships, a.author_id = none) :
    AssignInv paper'.authorships := by
  unfold processPaper at h
  cases hgp : api.getPaper paper.title (paper.authorships.map (fun a => a.author_name)) with
  | none =>
    rw [hgp] at h
    simp only [Option.some.injEq, Prod.mk.injEq] at h
    exact h.2 ▸ assignInv_of_unassigned hun
  | some paperJson =>
    rw [hgp] at h
    dsimp only [] at h
    cases hfold : paperJson.authors.foldlM
        (fun acc aj => processAuthorIdJson api paperJson paperIdx acc.1 acc.2 aj)
        ((st, paper.authorships) : LinkState × List Authorship) with
    | none => rw [hfold] at h; simp at h
    | some res =>
      rw [hfold] at h
      dsimp only [] at h
      obtain ⟨st1, auths1⟩ := res
      simp only [Option.some.injEq, Prod.mk.injEq] at h
      have hx := foldAuthors_assignInv paperJson.authors st paper.authorships st1 auths1
        (assignInv_of_unassigned hun) hfold
      rw [← h.2]
      exact hx

theorem linkPapers_assignInv {api : Api} :
    ∀ (ps : List Paper) (idx : Nat) (st : LinkState) (st' : LinkState) (ps' : List Paper),
      (∀ p ∈ ps, ∀ a ∈ p.authorships, a.author_id = none) →
      linkPapers api idx st ps = some (st', ps') →
      ∀ p' ∈ ps', AssignInv p'.authorships := by
  intro ps
  induction ps with
  | nil =>
    intro idx st st' ps' _ h p' hp'
    simp only [linkPapers, Option.some.injEq, Prod.mk.injEq] at h
    rw [← h.2] at hp'
    cases hp'
  | cons p rest ih =>
    intro idx st st' ps' hun h p' hp'
    unfold linkPapers at h
    cases h1 : processPaper api idx st p with
    | none => rw [h1] at h; simp at h
    | some r1 =>
      rw [h1] at h
      simp only [Option.bind_eq_bind, Option.some_bind'] at h
      cases h2 : linkPapers api (idx + 1) r1.1 rest with
      | none => rw [h2] at h; simp at h
      | some r2 =>
        rw [h2] at h
        simp only [Option.bind_eq_bind, Option.some_bind', pure, Option.some.injEq,
          Prod.mk.injEq] at h
        rw [← h.2] at hp'
        rcases List.mem_cons.mp hp' with hfst | hrest
        · obtain ⟨rst, rp⟩ := r1
          exact hfst ▸ processPaper_assignInv h1 (hun p (List.mem_cons_self _ _))
        · exact ih (idx + 1) r1.1 r2.1 r2.2
            (fun q hq => hun q (List.mem_cons_of_mem _ hq)) (by rw [h2]) p' hrest

theorem assignInv_pairwise {auths : List Authorship} (hinv : AssignInv auths) :
    auths.Pairwise (fun a b => ∀ v, a.author_id = some v → b.author_id ≠ some v) := by
  rw [List.pairwise_iff_getElem]
  intro i j hi hj hij v hvi hvj
  have h1 := hinv i auths[i] (List.getElem?_eq_getElem hi) v hvi
  have h2 := hinv j auths[j] (List.getElem?_eq_getElem hj) v hvj
  rw [h1] at h2
  have : i = j := by injection h2
  omega

/-- C2 amended: after the linker runs over papers whose authorships start
unassigned, no two authorships *of the same paper* hold the same non-null
`author_id` — every write with id `v` targets the one index `min` selects
for `v`, which depends only on `v` and the fixed authorship names.  The
"written at most once" half of the claim is false (see the counterexample):
a later candidate whose nearest authorship is already assigned simply
overwrites it, and two distinct papers sharing a title may also repeat an
id between them. -/
theorem authorship_unique_amended :
    ∀ (api : Api) (papers : List Paper) (r : LinkResult),
      (∀ p ∈ papers, ∀ a ∈ p.authorships, a.author_id = none) →
      get_author_data api papers = some r →
      ∀ p ∈ r.papers,
        p.authorships.Pairwise
          (fun a b => ∀ v, a.author_id = some v → b.author_id ≠ some v) := by
  intro api papers r hun h p hp
  unfold get_author_data at h
  cases hl : linkPapers api 0 ⟨[], [], [], [], []⟩ papers with
  | none => rw [hl] at h; simp at h
  | some res =>
    rw [hl] at h
    obtain ⟨st, ps⟩ := res
    simp only [Option.some.injEq] at h
    subst h
    exact assignInv_pairwise (linkPapers_assignInv papers 0 _ st ps hun hl p hp)

/-- Witness for C2 amended on scenario A: the linked paper's two
authorships (`none` and `some "2"`) carry no duplicate non-null id. -/
theorem authorship_unique_amended_witness :
    (⟨"t", "Long", [⟨"t", "liam watts", none⟩, ⟨"t", "zed zed", some "2"⟩]⟩ :
        Paper).authorships.Pairwise
      (fun a b => ∀ v, a.author_id = some v → b.author_id ≠ some v) :=
  authorship_unique_amended apiA papersA
    ⟨[⟨"liam watts", "1"⟩, ⟨"zed zed", "2"⟩],
      [⟨"t", "Long", [⟨"t", "liam watts", none⟩, ⟨"t", "zed zed", some "2"⟩]⟩],
      [(0, 1, "1"), (0, 1, "2")], ["1", "2"]⟩
    (by intro p hp a ha
        simp only [papersA, List.mem_singleton] at hp
        subst hp
        simp only [List.mem_cons, List.mem_singleton] at ha
        rcases ha with h1 | h1 | h1
        · rw [h1]
        · rw [h1]
        · cases h1)
    (by decide)
    ⟨"t", "Long", [⟨"t", "liam watts", none⟩, ⟨"t", "zed zed", some "2"⟩]⟩
    (by simp)

/-! ## Claim C6 — the paper-matcher cascade -/

theorem firstNonEmptyQuery_eq (search : String → List SemanticScholarPaper) :
    ∀ qs : List String,
      firstNonEmptyQuery search qs =
        (match qs.find? (fun q => !(search q).isEmpty) with
          | some q => search q
          | none => []) := by
  intro qs
  induction qs with
  | nil => rfl
  | cons q rest ih =>
    cases hq : search q with
    | nil =>
      rw [show firstNonEmptyQuery search (q :: rest) =
        (match search q with
          | [] => firstNonEmptyQuery search rest
          | r => r) from rfl, hq]
      rw [List.find?_cons_of_neg _ (by simp [hq])]
      exact ih
    | cons p ps =>
      rw [show firstNonEmptyQuery search (q :: rest) =
        (match search q with
          | [] => firstNonEmptyQuery search rest
          | r => r) from rfl, hq]
      rw [List.find?_cons_of_pos _ (by simp [hq])]
      exact hq.symm

theorem truncQueries_words (title : String) :
    ∀ q ∈ truncQueries title, ∃ k, 3 ≤ k ∧ k < (splitSpace title).length ∧
      q = joinWords ((splitSpace title).take k) := by
  intro q hq
  unfold truncQueries at hq
  simp only [List.mem_map, List.mem_range'_1] at hq
  obtain ⟨i, ⟨hi1, hi2⟩, rfl⟩ := hq
  exact ⟨(splitSpace title).length - i, by omega, by omega, rfl⟩

theorem getPaperCandidates_cascade (search : String → List SemanticScholarPaper)
    (paper : Paper) (a0 : Authorship) (rest : List Authorship)
    (h : paper.authorships = a0 :: rest) :
    getPaperCandidates search paper =
      some (match (paper.title :: (paper.title ++ " " ++ a0.author_name) ::
          truncQueries paper.title).find? (fun q => !(search q).isEmpty) with
        | some q => search q
        | none => []) := by
  unfold getPaperCandidates
  cases h1 : search paper.title with
  | cons p ps =>
    dsimp only []
    rw [List.find?_cons_of_pos _ (by simp [h1])]
    simp [h1]
  | nil =>
    dsimp only []
    rw [h]
    dsimp only []
    cases h2 : search (paper.title ++ " " ++ a0.author_name) with
    | cons p ps =>
      dsimp only []
      rw [List.find?_cons_of_neg _ (by simp [h1]), List.find?_cons_of_pos _ (by simp [h2])]
      simp [h2]
    | nil =>
      dsimp only []
      rw [List.find?_cons_of_neg _ (by simp [h1]), List.find?_cons_of_neg _ (by simp [h2]),
        firstNonEmptyQuery_eq]

theorem matchPaper_none {paper : Paper} {cs : List SemanticScholarPaper}
    (h : ∀ c ∈ cs, is_same_paper c paper = false) :
    matchPaperToCandidates paper cs = none := by
  unfold matchPaperToCandidates
  rw [List.find?_eq_none]
  intro c hc
  simp [h c hc]

theorem matchPaper_some {paper : Paper} {cs : List SemanticScholarPaper}
    {c : SemanticScholarPaper} (h : matchPaperToCandidates paper cs = some c) :
    c ∈ cs ∧ is_same_paper c paper = true := by
  unfold matchPaperToCandidates at h
  have h1 := List.mem_of_find?_eq_some h
  have h2 := List.find?_some h
  exact ⟨h1, by simpa using h2⟩

theorem is_same_paper_iff (c : SemanticScholarPaper) (p : Paper) :
    is_same_paper c p = true ↔
      ((splitSpace (strLower c.title)).take 3 = (splitSpace (strLower p.title)).take 3 ∨
        ∃ a ∈ c.authors, ∃ ats ∈ p.authorships, ats.author_name = strLower a.name) := by
  simp only [is_same_paper, Bool.or_eq_true, equal_titles, decide_eq_true_eq,
    shares_author, List.any_eq_true]

/-- C6: the Paper Matcher tries the verbatim title, then title + first
listed author, then title truncations, taking the first non-empty result
(first conjunct); every truncation query is the join of at least the first
3 title words and fewer than all of them, so no truncation query of fewer
than 3 words is ever issued (second conjunct); if every query comes back
empty the paper is unfindable, `none` (third conjunct); given the candidate
list it accepts the first candidate whose first three lowercased title
words match the local title's or that lists an author name equal (after
lowercasing) to one of the local authorship names, and returns `none` when
no candidate satisfies either condition (remaining conjuncts). -/
theorem paper_matcher_cascade :
    (∀ (search : String → List SemanticScholarPaper) (paper : Paper)
      (a0 : Authorship) (rest : List Authorship), paper.authorships = a0 :: rest →
      getPaperCandidates search paper =
        some (match (paper.title :: (paper.title ++ " " ++ a0.author_name) ::
            truncQueries paper.title).find? (fun q => !(search q).isEmpty) with
          | some q => search q
          | none => [])) ∧
    (∀ (title : String) (q : String), q ∈ truncQueries title →
      ∃ k, 3 ≤ k ∧ k < (splitSpace title).length ∧
        q = joinWords ((splitSpace title).take k)) ∧
    (∀ (search : String → List SemanticScholarPaper) (paper : Paper)
      (a0 : Authorship) (rest : List Authorship), paper.authorships = a0 :: rest →
      (∀ q, search q = []) → searchPaperSem search paper = some none) ∧
    (∀ (paper : Paper) (cs : List SemanticScholarPaper) (c : SemanticScholarPaper),
      matchPaperToCandidates paper cs = some c → c ∈ cs ∧
        ((splitSpace (strLower c.title)).take 3 =
            (splitSpace (strLower paper.title)).take 3 ∨
          ∃ a ∈ c.authors, ∃ ats ∈ paper.authorships,
            ats.author_name = strLower a.name)) ∧
    (∀ (paper : Paper) (cs : List SemanticScholarPaper),
      (∀ c ∈ cs, ¬((splitSpace (strLower c.title)).take 3 =
            (splitSpace (strLower paper.title)).take 3 ∨
          ∃ a ∈ c.authors, ∃ ats ∈ paper.authorships,
            ats.author_name = strLower a.name)) →
      matchPaperToCandidates paper cs = none) := by
  refine ⟨getPaperCandidates_cascade, truncQueries_words, ?_, ?_, ?_⟩
  · intro search paper a0 rest h hempty
    unfold searchPaperSem
    rw [getPaperCandidates_cascade search paper a0 rest h]
    have hfind : (paper.title :: (paper.title ++ " " ++ a0.author_name) ::
        truncQueries paper.title).find? (fun q => !(search q).isEmpty) = none := by
      rw [List.find?_eq_none]
      intro q _
      simp [hempty q]
    rw [hfind]
    rfl
  · intro paper cs c h
    have hx := matchPaper_some h
    exact ⟨hx.1, (is_same_paper_iff c paper).mp hx.2⟩
  · intro paper cs h
    exact matchPaper_none (fun c hc => by
      have := h c hc
      rw [← is_same_paper_iff c paper] at this
      simpa using this)

/-- Witness for C6: a paper whose every query returns no results is
declared unfindable. -/
theorem paper_matcher_cascade_witness :
    searchPaperSem (fun _ => []) paperF = some none :=
  paper_matcher_cascade.2.2.1 (fun _ => []) paperF
    ⟨"alpha beta gamma delta", "jane doe", none⟩ [] rfl (fun _ => rfl)

example : searchPaperSem searchF paperF = some (some candF) := by decide

/-- C5 amended: `seen_author_ids` keys the dedup on the caller-supplied id
(or the resolved id when none was supplied), not on the final resolved id:
an author whose supplied id the API corrects is fetched and emitted again
when a later paper lists the corrected id directly (see the
counterexample).  When the API never supersedes ids — fetching `s` returns
a record with id `s` — and every author reference carries a definite
non-empty id, the claimed behaviour holds: the run emits exactly one
`Author` per fetched id, the emitted ids are pairwise distinct, and no id
is ever fetched twice. -/
theorem identity_cache_amended :
    ∀ (api : Api) (papers : List Paper) (r : LinkResult),
      (∀ t ns pj, api.getPaper t ns = some pj →
        ∀ aj ∈ pj.authors, ∃ s, aj.authorId = some s ∧ s ≠ "") →
      (∀ s, (api.getAuthor s).author_id = s) →
      get_author_data api papers = some r →
      r.authors.map Author.author_id = r.fetches ∧
        (r.authors.map Author.author_id).Nodup ∧ r.fetches.Nodup := by
  intro api papers r Hp Ha h
  unfold get_author_data at h
  cases hl : linkPapers api 0 ⟨[], [], [], [], []⟩ papers with
  | none => rw [hl] at h; simp at h
  | some res =>
    rw [hl] at h
    obtain ⟨st, ps⟩ := res
    have hinv0 : CacheInv ⟨[], [], [], [], []⟩ := ⟨rfl, List.nodup_nil, by simp⟩
    have hinv := linkPapers_cacheInv Ha Hp papers 0 _ st ps hinv0 hl
    simp only [Option.some.injEq] at h
    subst h
    exact ⟨hinv.1, by rw [hinv.1]; exact hinv.2.1, hinv.2.1⟩

/-- Witness for C5 amended on scenario E (definite ids, no correction). -/
theorem identity_cache_amended_witness :
    (([⟨"n", "A"⟩] : List Author).map Author.author_id = ["A"]) ∧
      (([⟨"n", "A"⟩] : List Author).map Author.author_id).Nodup ∧
      (["A"] : List String).Nodup :=
  identity_cache_amended apiE papersE
    ⟨[⟨"n", "A"⟩], [⟨"t", "Long", [⟨"t", "n", some "A"⟩]⟩], [(0, 0, "A")], ["A"]⟩
    (by intro t ns pj h aj haj
        simp only [apiE, Option.some.injEq] at h
        subst h
        simp only [List.mem_singleton] at haj
        subst haj
        exact ⟨"A", rfl, by decide⟩)
    (fun s => rfl)
    (by decide)

end AnalyseConf
